import Mathlib

/-!
Verification of the okfn_iati multi-CSV converter core against its
natural-language specification.

The Python source is shallowly embedded: CSV rows are string-valued
records (a missing dict key is modelled by `Option String` or by the
`''` default the code itself applies), XML attributes are `Option String`
(`None` when absent), Python `int()` / `float()` on decimal literals are
modelled by `pyInt?` / `pyFloat?` over `Int` / `ℚ` (Python's binary
floats are idealised as exact rationals), and Python's stateful loops
become structural recursions threading their state explicitly.
-/

namespace OkfnIati

/-! ### Python primitives -/

/-- Python truthiness of an optional string (`None` and `''` are falsy). -/
def pyTruthy : Option String → Bool
  | none => false
  | some s => s ≠ ""

/-- Models Python `str.strip()`: remove leading and trailing whitespace. -/
def pyStrip (s : String) : String :=
  ⟨((s.data.dropWhile Char.isWhitespace).reverse.dropWhile Char.isWhitespace).reverse⟩

/-- Models Python `str.lower()` on ASCII text. -/
def pyLower (s : String) : String :=
  ⟨s.data.map Char.toLower⟩

/-- Digits of a decimal literal folded to a natural number. -/
def digitsToNat (cs : List Char) : Nat :=
  cs.foldl (fun n c => 10 * n + (c.toNat - 48)) 0

/-- All characters are ASCII decimal digits. -/
def allDigits (cs : List Char) : Bool :=
  cs.all Char.isDigit

/-- Unsigned decimal integer literal, `none` when empty or non-numeric. -/
def unsignedInt? (cs : List Char) : Option Nat :=
  if cs ≠ [] ∧ allDigits cs then some (digitsToNat cs) else none

/-- Optionally signed decimal integer literal. -/
def signedInt? : List Char → Option Int
  | '+' :: rest => (unsignedInt? rest).map Int.ofNat
  | '-' :: rest => (unsignedInt? rest).map (fun n => -(n : Int))
  | cs => (unsignedInt? cs).map Int.ofNat

/-- Models Python `int(s)` on decimal strings: surrounding whitespace is
stripped, an optional sign precedes the digits; `none` models the
`ValueError` raised on anything else. -/
def pyInt? (s : String) : Option Int :=
  signedInt? (pyStrip s).data

/-- Unsigned decimal mantissa with optional fractional part
(`"60"`, `"60."`, `".5"`, `"60.25"`). -/
def mantissa? (cs : List Char) : Option ℚ :=
  match cs.splitOn '.' with
  | [i] => if i ≠ [] ∧ allDigits i then some (digitsToNat i) else none
  | [i, f] =>
      if (i ≠ [] ∨ f ≠ []) ∧ allDigits i ∧ allDigits f then
        some ((digitsToNat (i ++ f) : ℚ) / (10 : ℚ) ^ f.length)
      else none
  | _ => none

/-- Optionally signed mantissa. -/
def signedMantissa? : List Char → Option ℚ
  | '+' :: rest => mantissa? rest
  | '-' :: rest => (mantissa? rest).map Neg.neg
  | cs => mantissa? cs

/-- Models Python `float(s)` on decimal literals (optional sign, optional
fractional part, optional exponent), the value taken as an exact rational;
`none` models the `ValueError` raised on anything else. -/
def pyFloat? (s : String) : Option ℚ :=
  match ((pyStrip s).data.map Char.toLower).splitOn 'e' with
  | [m] => signedMantissa? m
  | [m, e] =>
      match signedMantissa? m, signedInt? e with
      | some q, some ex => some (q * (10 : ℚ) ^ ex)
      | _, _ => none
  | _ => none

/-! ### Validation result model (csv_validators/models.py) -/

/-- Severity level of a validation issue. -/
inductive ValidationLevel where
  | error
  | warning
deriving DecidableEq

/-- Categorized error codes for CSV validation issues. -/
inductive ErrorCode where
  | requiredField
  | invalidDate
  | invalidDatetime
  | invalidInteger
  | invalidDecimal
  | invalidEnum
  | invalidPercentage
  | invalidBoolean
  | invalidUrl
  | invalidCurrency
  | invalidLanguage
  | invalidCrsCode
  | missingColumn
  | missingFile
  | emptyFile
  | duplicateRow
  | orphanReference
  | percentageSum
  | custom
deriving DecidableEq

/-- A single validation issue with row/column-level detail. -/
structure ValidationIssue where
  level : ValidationLevel
  code : ErrorCode
  message : String
  fileName : Option String
  rowNumber : Option Nat
  columnName : Option String
  value : Option String
deriving DecidableEq

/-- `CsvValidationResult.is_valid`: true iff no error-level issue. -/
def isValid (issues : List ValidationIssue) : Bool :=
  !(issues.any fun i => i.level == ValidationLevel.error)

/-! ### Generic loop machinery

Three recurring Python idioms: a `seen`-set dedup loop, a
`for row_idx, row in enumerate(rows, start=n)` scan that may append one
issue per row, and a dict-building loop that updates an entry in place
or appends a new one (insertion order preserved, as Python dicts do). -/

/-- Python `seen`-set loop: keep each element whose key has not been
seen, threading the set of seen keys (modelled as a list). Returns the
kept elements and the final seen set. -/
def dedupByKey {α κ : Type} [DecidableEq κ] (k : α → κ) :
    List κ → List α → List α × List κ
  | seen, [] => ([], seen)
  | seen, x :: xs =>
      if k x ∈ seen then dedupByKey k seen xs
      else
        let r := dedupByKey k (k x :: seen) xs
        (x :: r.1, r.2)

theorem dedupByKey_append {α κ : Type} [DecidableEq κ] (k : α → κ)
    (seen : List κ) (l₁ l₂ : List α) :
    dedupByKey k seen (l₁ ++ l₂) =
      ((dedupByKey k seen l₁).1 ++ (dedupByKey k (dedupByKey k seen l₁).2 l₂).1,
       (dedupByKey k (dedupByKey k seen l₁).2 l₂).2) := by
  induction l₁ generalizing seen with
  | nil => simp [dedupByKey]
  | cons x xs ih =>
      rw [List.cons_append]
      by_cases h : k x ∈ seen
      · rw [dedupByKey, if_pos h, ih, dedupByKey, if_pos h]
      · rw [dedupByKey, if_neg h]
        show (x :: (dedupByKey k (k x :: seen) (xs ++ l₂)).1,
          (dedupByKey k (k x :: seen) (xs ++ l₂)).2) = _
        rw [ih (k x :: seen), dedupByKey, if_neg h]
        rfl

theorem dedupByKey_not_mem_seen {α κ : Type} [DecidableEq κ] (k : α → κ)
    (seen : List κ) (l : List α) :
    ∀ x ∈ (dedupByKey k seen l).1, k x ∉ seen := by
  induction l generalizing seen with
  | nil => simp [dedupByKey]
  | cons x xs ih =>
      intro y hy
      simp only [dedupByKey] at hy
      by_cases h : k x ∈ seen
      · exact ih seen y (by simpa [if_pos h] using hy)
      · simp only [if_neg h, List.mem_cons] at hy
        rcases hy with rfl | hy
        · exact h
        · intro hmem
          exact ih (k x :: seen) y hy (List.mem_cons_of_mem _ hmem)

theorem dedupByKey_pairwise {α κ : Type} [DecidableEq κ] (k : α → κ)
    (seen : List κ) (l : List α) :
    (dedupByKey k seen l).1.Pairwise (fun a b => k a ≠ k b) := by
  induction l generalizing seen with
  | nil => simp [dedupByKey]
  | cons x xs ih =>
      simp only [dedupByKey]
      by_cases h : k x ∈ seen
      · simpa [if_pos h] using ih seen
      · simp only [if_neg h]
        refine List.Pairwise.cons ?_ (ih (k x :: seen))
        intro b hb heq
        exact dedupByKey_not_mem_seen k (k x :: seen) xs b hb
          (heq ▸ List.mem_cons_self _ _)

/-- Python `for row_idx, row in enumerate(rows, start=n)` loop that may
append at most one issue per row. -/
def rowScan {α : Type} (f : Nat → α → Option ValidationIssue) :
    Nat → List α → List ValidationIssue
  | _, [] => []
  | n, x :: xs => (f n x).toList ++ rowScan f (n + 1) xs

theorem rowScan_rowNumber_ge {α : Type} (f : Nat → α → Option ValidationIssue)
    (hf : ∀ n x iss, f n x = some iss → iss.rowNumber = some n) :
    ∀ n xs iss, iss ∈ rowScan f n xs → ∃ m, n ≤ m ∧ iss.rowNumber = some m := by
  intro n xs
  induction xs generalizing n with
  | nil => simp [rowScan]
  | cons x xs ih =>
      intro iss hiss
      simp only [rowScan, List.mem_append] at hiss
      rcases hiss with hiss | hiss
      · cases hfx : f n x with
        | none => simp [hfx] at hiss
        | some j =>
            simp only [hfx, Option.toList_some, List.mem_singleton] at hiss
            exact ⟨n, le_refl n, hiss ▸ hf n x j hfx⟩
      · obtain ⟨m, hm, hrow⟩ := ih (n + 1) iss hiss
        exact ⟨m, le_trans (Nat.le_succ n) hm, hrow⟩

theorem rowScan_filter_eq {α : Type} (f : Nat → α → Option ValidationIssue)
    (hf : ∀ n x iss, f n x = some iss → iss.rowNumber = some n)
    (n j : Nat) (xs : List α) (hj : j < xs.length) :
    (rowScan f n xs).filter (fun iss => iss.rowNumber == some (n + j)) =
      (f (n + j) (xs.get ⟨j, hj⟩)).toList := by
  induction xs generalizing n j with
  | nil => exact absurd hj (Nat.not_lt_zero j)
  | cons x xs ih =>
      simp only [rowScan, List.filter_append]
      cases j with
      | zero =>
          have h1 : (f n x).toList.filter
              (fun iss => iss.rowNumber == some (n + 0)) = (f n x).toList := by
            cases hfx : f n x with
            | none => simp
            | some iss =>
                have hrow := hf n x iss hfx
                simp only [Option.toList_some, List.filter_cons,
                  List.filter_nil, hrow]
                simp
          have h2 : (rowScan f (n + 1) xs).filter
              (fun iss => iss.rowNumber == some (n + 0)) = [] := by
            rw [List.filter_eq_nil_iff]
            intro iss hiss
            obtain ⟨m, hm, hrow⟩ := rowScan_rowNumber_ge f hf (n + 1) xs iss hiss
            simp only [hrow, Nat.add_zero, beq_iff_eq, Option.some.injEq]
            omega
          rw [h1, h2, List.append_nil]
          rfl
      | succ j =>
          have h1 : (f n x).toList.filter
              (fun iss => iss.rowNumber == some (n + (j + 1))) = [] := by
            cases hfx : f n x with
            | none => simp
            | some iss =>
                have hrow := hf n x iss hfx
                have hcond : (some n == some (n + (j + 1))) = false := by
                  simp only [beq_eq_false_iff_ne, ne_eq, Option.some.injEq]
                  omega
                simp only [Option.toList_some, List.filter_cons,
                  List.filter_nil, hrow, hcond]
                simp
          have hj' : j < xs.length := Nat.lt_of_succ_lt_succ hj
          have h2 := ih (n + 1) j hj'
          rw [h1, List.nil_append]
          have harith : n + 1 + j = n + (j + 1) := by omega
          rw [harith] at h2
          rw [h2]
          rfl

/-- Python dict-building loop: per element with a key, update the
existing entry in place or append a new one. -/
def pyDictFold {α β : Type} (key? : α → Option String) (init : α → β)
    (upd : β → α → β) : List (String × β) → List α → List (String × β)
  | acc, [] => acc
  | acc, x :: xs =>
      match key? x with
      | none => pyDictFold key? init upd acc xs
      | some k =>
          if acc.any (fun e => e.1 == k) then
            pyDictFold key? init upd
              (acc.map (fun e => if e.1 = k then (e.1, upd e.2 x) else e)) xs
          else pyDictFold key? init upd (acc ++ [(k, init x)]) xs

/-- Updates contributed to the entry keyed `k` by the elements of `l`. -/
def pyDictRest {α β : Type} (key? : α → Option String) (upd : β → α → β)
    (k : String) (b : β) (l : List α) : β :=
  l.foldl (fun b x => if key? x = some k then upd b x else b) b

/-- Entries appended for keys not already present. -/
def pyDictNew {α β : Type} (key? : α → Option String) (init : α → β)
    (upd : β → α → β) : List String → List α → List (String × β)
  | _, [] => []
  | seen, x :: xs =>
      match key? x with
      | none => pyDictNew key? init upd seen xs
      | some k =>
          if k ∈ seen then pyDictNew key? init upd seen xs
          else (k, pyDictRest key? upd k (init x) xs) ::
            pyDictNew key? init upd (k :: seen) xs

theorem pyDictNew_congr {α β : Type} (key? : α → Option String) (init : α → β)
    (upd : β → α → β) (seen₁ seen₂ : List String)
    (h : ∀ a, a ∈ seen₁ ↔ a ∈ seen₂) (l : List α) :
    pyDictNew key? init upd seen₁ l = pyDictNew key? init upd seen₂ l := by
  induction l generalizing seen₁ seen₂ with
  | nil => simp [pyDictNew]
  | cons x xs ih =>
      cases hkey : key? x with
      | none => simp only [pyDictNew, hkey]; exact ih seen₁ seen₂ h
      | some k =>
          simp only [pyDictNew, hkey]
          by_cases hk : k ∈ seen₁
          · rw [if_pos hk, if_pos ((h k).1 hk)]
            exact ih seen₁ seen₂ h
          · rw [if_neg hk, if_neg (fun hk2 => hk ((h k).2 hk2))]
            refine congrArg _ (ih (k :: seen₁) (k :: seen₂) ?_)
            intro a
            simp only [List.mem_cons, h a]

theorem pyDictFold_spec {α β : Type} (key? : α → Option String) (init : α → β)
    (upd : β → α → β) (acc : List (String × β)) (l : List α) :
    pyDictFold key? init upd acc l =
      acc.map (fun e => (e.1, pyDictRest key? upd e.1 e.2 l)) ++
        pyDictNew key? init upd (acc.map (·.1)) l := by
  induction l generalizing acc with
  | nil =>
      simp only [pyDictFold, pyDictNew, List.append_nil]
      conv_lhs => rw [show acc = acc.map id from (List.map_id acc).symm]
      refine List.map_congr_left ?_
      intro e _
      simp [pyDictRest]
  | cons x xs ih =>
      cases hkey : key? x with
      | none =>
          simp only [pyDictFold, pyDictNew, hkey]
          rw [ih acc]
          refine congrArg (· ++ _) (List.map_congr_left ?_)
          intro e _
          simp [pyDictRest, hkey]
      | some k =>
          simp only [pyDictFold, pyDictNew, hkey]
          have hmem : (acc.any (fun e => e.1 == k)) = true ↔
              k ∈ acc.map (·.1) := by
            simp [List.any_eq_true, List.mem_map]
          by_cases hk : k ∈ acc.map (·.1)
          · rw [if_pos (hmem.2 hk), if_pos hk, ih]
            have hkeys : (acc.map (fun e =>
                if e.1 = k then (e.1, upd e.2 x) else e)).map (·.1) =
                acc.map (·.1) := by
              rw [List.map_map]
              refine List.map_congr_left ?_
              intro e _
              by_cases h : e.1 = k <;> simp [h]
            rw [hkeys]
            refine congrArg (· ++ _) ?_
            rw [List.map_map]
            refine List.map_congr_left ?_
            intro e _
            by_cases h : e.1 = k
            · simp only [Function.comp_apply, if_pos h, pyDictRest,
                List.foldl_cons, hkey]
              rw [if_pos (by rw [h])]
            · simp only [Function.comp_apply, if_neg h, pyDictRest,
                List.foldl_cons, hkey]
              rw [if_neg (fun hcontra =>
                h (Option.some.inj hcontra).symm)]
          · rw [if_neg (fun h => hk (hmem.1 h)), if_neg hk, ih]
            rw [List.map_append]
            simp only [List.map_cons, List.map_nil]
            rw [List.append_assoc]
            refine congrArg₂ (· ++ ·) ?_ ?_
            · refine List.map_congr_left ?_
              intro e he
              have hne : e.1 ≠ k := fun h =>
                hk (h ▸ List.mem_map_of_mem (·.1) he)
              simp only [pyDictRest, List.foldl_cons, hkey]
              rw [if_neg (fun hcontra =>
                hne (Option.some.inj hcontra).symm)]
            · simp only [List.singleton_append]
              refine congrArg₂ List.cons rfl ?_
              refine pyDictNew_congr key? init upd _ _ ?_ xs
              intro a
              simp only [List.map_append, List.map_cons, List.map_nil,
                List.mem_append, List.mem_cons, List.mem_singleton,
                List.not_mem_nil, or_false]
              tauto

/-! ### Tri-state humanitarian flag (C1, C10) -/

/-- The attributes of one `iati-activity` XML element that the claims
need; an absent attribute is `none`, a present one `some value`. -/
structure ActivityElem where
  humanitarian : Option String

/-- The `humanitarian` cell written by `extract_main_activity_data`
(extractors.py line 155): the attribute's value verbatim when present,
`''` when absent. -/
def extract_main_activity_data_humanitarian (e : ActivityElem) : String :=
  e.humanitarian.getD ""

/-- Activity-level humanitarian parse in `_build_activity_from_data`
(base.py lines 779-786): `'' -> None`, `'0' -> False`, anything else
`True`; the cell is read with default `''`. -/
def build_activity_humanitarian (cell : Option String) : Option Bool :=
  let v := cell.getD ""
  if v = "" then none
  else if v = "0" then some false
  else some true

/-- Transaction-level humanitarian parse in `build_transaction`
(builders.py lines 194-201), the same `''`/`'0'`/other branching. -/
def build_transaction_humanitarian (cell : Option String) : Option Bool :=
  let v := cell.getD ""
  if v = "" then none
  else if v = "0" then some false
  else some true

/-- `validate_boolean_flag` (field_validators.py lines 115-122):
empty passes, else the stripped lowercase value must be one of
`0`, `1`, `true`, `false`. -/
def validate_boolean_flag (value : String) : Option String :=
  if pyStrip value = "" then none
  else
    let v := pyLower (pyStrip value)
    if v = "0" ∨ v = "1" ∨ v = "true" ∨ v = "false" then none
    else some ("Invalid boolean flag '" ++ v ++ "', expected 0, 1, true, or false")

/-- C1: the humanitarian column round-trips the tri-state exactly:
extraction writes the attribute verbatim when present and `''` when
absent, and the build parse maps `'' -> none`, `'0' -> some false`,
`'1' -> some true`, so absent, explicit `"0"` and explicit `"1"` are
reproduced exactly and a missing attribute is never coerced to false. -/
theorem humanitarian_tristate_roundtrip :
    (∀ s : String, extract_main_activity_data_humanitarian ⟨some s⟩ = s) ∧
    extract_main_activity_data_humanitarian ⟨none⟩ = "" ∧
    build_activity_humanitarian (some "") = none ∧
    build_activity_humanitarian (some "0") = some false ∧
    build_activity_humanitarian (some "1") = some true ∧
    build_activity_humanitarian
      (some (extract_main_activity_data_humanitarian ⟨none⟩)) = none ∧
    build_activity_humanitarian
      (some (extract_main_activity_data_humanitarian ⟨some "0"⟩)) = some false ∧
    build_activity_humanitarian
      (some (extract_main_activity_data_humanitarian ⟨some "1"⟩)) = some true := by
  refine ⟨fun s => rfl, rfl, by decide, by decide, by decide, by decide, by decide, by decide⟩

/-- C10: at build time any humanitarian cell other than `''` and `'0'`
parses as `True` — including the string `'false'`, which the CSV
boolean-flag field check accepts as valid — at both the activity level
and the transaction level. -/
theorem humanitarian_truthy_parses_true :
    (∀ s : String, s ≠ "" → s ≠ "0" →
      build_activity_humanitarian (some s) = some true ∧
      build_transaction_humanitarian (some s) = some true) ∧
    build_activity_humanitarian (some "false") = some true ∧
    build_transaction_humanitarian (some "false") = some true ∧
    validate_boolean_flag "false" = none := by
  refine ⟨fun s h0 h1 => ?_, by decide, by decide, by decide⟩
  constructor <;>
    simp [build_activity_humanitarian, build_transaction_humanitarian, h0, h1]

/-- Witness for C10 at the concrete cell value `"false"`. -/
theorem humanitarian_truthy_parses_true_witness :
    build_activity_humanitarian (some "false") = some true ∧
    build_transaction_humanitarian (some "false") = some true :=
  humanitarian_truthy_parses_true.1 "false" (by decide) (by decide)

/-! ### Synthetic result / indicator keys (C6) -/

/-- One `indicator` child element of a `result`; its attributes play no
role in key synthesis. -/
structure IndicatorElem where
  measure : Option String

/-- One `result` child element of an activity: its `ref` attribute and
its `indicator` children. -/
structure ResultElem where
  ref : Option String
  indicators : List IndicatorElem

/-- The key fields of one row of `results.csv`. -/
structure ResultRow where
  activity_identifier : String
  result_ref : String
deriving DecidableEq

/-- The key fields of one row of `indicators.csv`. -/
structure IndicatorRow where
  activity_identifier : String
  result_ref : String
  indicator_ref : String
deriving DecidableEq

/-- `extract_result_data` (extractors.py lines 530-549) restricted to its
key fields: `result_ref` is the `ref` attribute when present, otherwise
`result_{result_index}`. -/
def extract_result_data (r : ResultElem) (activity_id : String)
    (result_index : Nat) : ResultRow :=
  ⟨activity_id, r.ref.getD ("result_" ++ toString result_index)⟩

/-- `extract_indicator_data` (extractors.py lines 551-564) restricted to
its key fields: `indicator_ref` is always
`indicator_{activity_id}_{result_ref}_{indicator_index}`. -/
def extract_indicator_data (activity_id result_ref : String)
    (indicator_index : Nat) : IndicatorRow :=
  ⟨activity_id, result_ref,
    "indicator_" ++ activity_id ++ "_" ++ result_ref ++ "_" ++
      toString indicator_index⟩

/-- The indicator loop of `_extract_activity_to_collections`
(base.py lines 655-665): `indicator_index` is incremented before each
extraction, so indices are 1-based. -/
def extractIndicatorRows (activity_id result_ref : String) :
    Nat → List IndicatorElem → List IndicatorRow
  | _, [] => []
  | j, _ :: rest =>
      extract_indicator_data activity_id result_ref (j + 1) ::
        extractIndicatorRows activity_id result_ref (j + 1) rest

/-- The result loop of `_extract_activity_to_collections`
(base.py lines 644-665): `result_index` is incremented before each
extraction; indicators are keyed by the already-computed `result_ref`. -/
def extractResultRows (activity_id : String) :
    Nat → List ResultElem → List ResultRow × List IndicatorRow
  | _, [] => ([], [])
  | i, r :: rest =>
      let rrow := extract_result_data r activity_id (i + 1)
      let irows := extractIndicatorRows activity_id rrow.result_ref 0 r.indicators
      let t := extractResultRows activity_id (i + 1) rest
      (rrow :: t.1, irows ++ t.2)

/-- All result and indicator rows extracted for one activity; extraction
is a pure function of the activity subtree, so re-extracting the same
XML regenerates identical keys. -/
def extract_results_and_indicators (activity_id : String)
    (results : List ResultElem) : List ResultRow × List IndicatorRow :=
  extractResultRows activity_id 0 results

theorem extractIndicatorRows_eq (activity_id result_ref : String)
    (j : Nat) (inds : List IndicatorElem) :
    extractIndicatorRows activity_id result_ref j inds =
      (List.range inds.length).map
        (fun q => extract_indicator_data activity_id result_ref (j + q + 1)) := by
  induction inds generalizing j with
  | nil => simp [extractIndicatorRows]
  | cons i rest ih =>
      simp only [extractIndicatorRows, List.length_cons,
        List.range_succ_eq_map, List.map_cons, List.map_map]
      refine congrArg₂ List.cons (by simp) ?_
      rw [ih (j + 1)]
      refine List.map_congr_left ?_
      intro q _
      simp only [Function.comp_apply]
      congr 1
      omega

theorem extractResultRows_eq (activity_id : String) (i : Nat)
    (rs : List ResultElem) :
    extractResultRows activity_id i rs =
      ((rs.enumFrom i).map (fun p => extract_result_data p.2 activity_id (p.1 + 1)),
       (rs.enumFrom i).flatMap (fun p =>
         (List.range p.2.indicators.length).map (fun q =>
           extract_indicator_data activity_id
             (extract_result_data p.2 activity_id (p.1 + 1)).result_ref (q + 1)))) := by
  induction rs generalizing i with
  | nil => simp [extractResultRows, List.enumFrom]
  | cons r rest ih =>
      simp only [extractResultRows, List.enumFrom, List.map_cons,
        List.flatMap_cons, ih (i + 1)]
      refine congrArg₂ Prod.mk rfl ?_
      refine congrArg₂ (· ++ ·) ?_ rfl
      rw [extractIndicatorRows_eq]
      refine List.map_congr_left ?_
      intro q _
      congr 1
      omega

/-- C6: synthetic key generation is deterministic with a fixed shape:
the `result_ref` of the `p`-th result row (0-based `p`) is the result's
`ref` attribute when present and otherwise `result_{p+1}`, and the
`indicator_ref` of the `q`-th indicator of that result is always
`indicator_{activity_id}_{result_ref}_{q+1}`; being a pure function of
the input, re-extraction regenerates identical keys. -/
theorem synthetic_keys_shape (activity_id : String) (results : List ResultElem) :
    (extract_results_and_indicators activity_id results).1 =
      results.enum.map (fun p =>
        (⟨activity_id, (p.2.ref).getD ("result_" ++ toString (p.1 + 1))⟩ : ResultRow)) ∧
    (extract_results_and_indicators activity_id results).2 =
      results.enum.flatMap (fun p =>
        (List.range p.2.indicators.length).map (fun q =>
          (⟨activity_id, (p.2.ref).getD ("result_" ++ toString (p.1 + 1)),
            "indicator_" ++ activity_id ++ "_" ++
              ((p.2.ref).getD ("result_" ++ toString (p.1 + 1))) ++ "_" ++
              toString (q + 1)⟩ : IndicatorRow))) := by
  constructor
  · rw [extract_results_and_indicators, extractResultRows_eq]
    rfl
  · rw [extract_results_and_indicators, extractResultRows_eq]
    rfl

/-! ### Transaction-sector deduplication (C2) -/

/-- One `sector` child of a `transaction` element. -/
structure SectorElem where
  code : Option String
  vocabulary : Option String
  vocabularyUri : Option String
  narrative : Option String

/-- One `transaction` element: its `ref` attribute, its
`transaction-type` child (`none` when the child is absent, otherwise
`some` of the child's `code` attribute — itself `none` when that
attribute is absent, as Python's `Element.get` returns `None`), and its
`sector` children. -/
structure TransactionElem where
  ref : Option String
  typeElemCode : Option (Option String)
  sectors : List SectorElem

/-- The `transaction_ref` cell of `extract_transaction_data`
(extractors.py line 338): `trans_elem.get('ref', '')`. -/
def extract_transaction_data_ref (t : TransactionElem) : String :=
  t.ref.getD ""

/-- The `transaction_type` cell of `extract_transaction_data`
(extractors.py lines 343-344): `''` when the `transaction-type` child is
absent, else the child's `code` attribute (Python `None` when the
attribute is absent). -/
def extract_transaction_data_type (t : TransactionElem) : Option String :=
  match t.typeElemCode with
  | none => some ""
  | some c => c

/-- One row of `transaction_sectors.csv`. -/
structure TransactionSectorRow where
  activity_identifier : String
  transaction_ref : String
  transaction_type : Option String
  sector_code : String
  vocabulary : String
  vocabulary_uri : String
  sector_name : String
deriving DecidableEq

/-- `extract_transaction_sector_data` (extractors.py lines 94-114). -/
def extract_transaction_sector_data (s : SectorElem) (activity_id : String)
    (transaction_ref : String) (transaction_type : Option String) :
    TransactionSectorRow :=
  ⟨activity_id, transaction_ref, transaction_type,
    s.code.getD "", s.vocabulary.getD "1", s.vocabularyUri.getD "",
    s.narrative.getD ""⟩

/-- The dedup key of base.py lines 620-627: activity id, transaction
ref, transaction type, `sector_code` and `vocabulary` (read back from
the row with default `'1'`; both cells are always present). -/
def sectorRowKey (r : TransactionSectorRow) :
    String × String × Option String × String × String :=
  (r.activity_identifier, r.transaction_ref, r.transaction_type,
    r.sector_code, r.vocabulary)

/-- The transaction loop of `_extract_activity_to_collections`
(base.py lines 601-632) restricted to `transaction_sectors` rows: one
`seen_transaction_sectors` set is created per activity (hence the seen
set is scoped to that one activity's transactions) and threaded through
all of its transactions; a sector row is appended only when its key is
unseen. -/
def extractTransactionSectors (activity_id : String) :
    List (String × String × Option String × String × String) →
      List TransactionElem → List TransactionSectorRow
  | _, [] => []
  | seen, t :: ts =>
      let d := dedupByKey sectorRowKey seen
        (t.sectors.map (fun s => extract_transaction_sector_data s activity_id
          (extract_transaction_data_ref t) (extract_transaction_data_type t)))
      d.1 ++ extractTransactionSectors activity_id d.2 ts

/-- All transaction-sector rows of one activity before deduplication, in
emission order. -/
def allTransactionSectorRows (activity_id : String)
    (ts : List TransactionElem) : List TransactionSectorRow :=
  ts.flatMap (fun t => t.sectors.map (fun s =>
    extract_transaction_sector_data s activity_id
      (extract_transaction_data_ref t) (extract_transaction_data_type t)))

theorem extractTransactionSectors_eq (activity_id : String)
    (seen : List (String × String × Option String × String × String))
    (ts : List TransactionElem) :
    extractTransactionSectors activity_id seen ts =
      (dedupByKey sectorRowKey seen (allTransactionSectorRows activity_id ts)).1 := by
  induction ts generalizing seen with
  | nil => simp [extractTransactionSectors, allTransactionSectorRows, dedupByKey]
  | cons t ts ih =>
      simp only [extractTransactionSectors, allTransactionSectorRows,
        List.flatMap_cons]
      rw [dedupByKey_append]
      exact congrArg _ (ih _)

/-- C2: the `transaction_sectors` rows extracted for one activity are the
first occurrences of the undeduplicated row stream under the composite
key `(activity_identifier, transaction_ref, transaction_type,
sector_code, vocabulary)`, and are therefore pairwise distinct on that
key; the seen-key set starts empty for each activity. -/
theorem transaction_sectors_unique (activity_id : String)
    (transactions : List TransactionElem) :
    extractTransactionSectors activity_id [] transactions =
      (dedupByKey sectorRowKey []
        (allTransactionSectorRows activity_id transactions)).1 ∧
    (extractTransactionSectors activity_id [] transactions).Pairwise
      (fun a b => sectorRowKey a ≠ sectorRowKey b) := by
  refine ⟨extractTransactionSectors_eq activity_id [] transactions, ?_⟩
  rw [extractTransactionSectors_eq activity_id [] transactions]
  exact dedupByKey_pairwise sectorRowKey [] _

/-! ### Cross-table foreign-key checks (C3) -/

/-- A child-table row as seen by `_check_fk_activity`: only the
`activity_identifier` cell is read. -/
structure ChildRow where
  activity_identifier : String
deriving DecidableEq

/-- A row of `activities.csv` as seen by `_get_activity_ids`. -/
structure ActivitiesIdRow where
  activity_identifier : String
deriving DecidableEq

/-- `_get_activity_ids` (cross_file_validator.py lines 62-72): the
non-empty stripped activity identifiers, modelled as a list used only
for membership. -/
def get_activity_ids (rows : List ActivitiesIdRow) : List String :=
  rows.filterMap (fun r =>
    let a := pyStrip r.activity_identifier
    if a ≠ "" then some a else none)

/-- The row loop of `_check_fk_activity` (cross_file_validator.py lines
88-101), parameterized by the file name that the method's first
statement — `self._get_filename(csv_key)`, line 87 — would have
produced; in this source that statement raises `AttributeError` (see
`old_converter_class_csv_files` below), so this loop is unreachable.
Were it reached: one ORPHAN_REFERENCE error per row whose stripped id is
truthy and not in the activities id set; rows numbered from 2 (header =
row 1). -/
def check_fk_activity_rows (fileName : String) (ids : List String)
    (rows : List ChildRow) : List ValidationIssue :=
  rowScan (fun n row =>
    let aid := pyStrip row.activity_identifier
    if aid ≠ "" ∧ aid ∉ ids then
      some ⟨ValidationLevel.error, ErrorCode.orphanReference,
        "activity_identifier '" ++ aid ++ "' not found in activities.csv",
        some fileName, some n, some "activity_identifier", some aid⟩
    else none) 2 rows

/-- A row of `results.csv` as seen by the cross-file checks. -/
structure ResultsRefRow where
  activity_identifier : String
  result_ref : String
deriving DecidableEq

/-- A row of `indicators.csv` as seen by the cross-file checks. -/
structure IndicatorsRefRow where
  activity_identifier : String
  result_ref : String
  indicator_ref : String
deriving DecidableEq

/-- A row of `indicator_periods.csv` as seen by the cross-file checks. -/
structure PeriodsRefRow where
  activity_identifier : String
  indicator_ref : String
deriving DecidableEq

/-- The reference-set construction and row loop of
`_check_indicator_result_fk` (cross_file_validator.py lines 134-161),
minus the `_get_filename('indicators')` call at line 147 that in this
source raises `AttributeError` between the two, making the loop
unreachable. Note the `result_refs and` conjunct — no error would be
emitted when the parent key set is empty. -/
def check_indicator_result_fk_rows (resultsRows : List ResultsRefRow)
    (indicatorsRows : List IndicatorsRefRow) : List ValidationIssue :=
  let result_refs := resultsRows.filterMap (fun r =>
    let x := pyStrip r.result_ref
    if x ≠ "" then some x else none)
  rowScan (fun n row =>
    let ref := pyStrip row.result_ref
    if ref ≠ "" ∧ result_refs ≠ [] ∧ ref ∉ result_refs then
      some ⟨ValidationLevel.error, ErrorCode.orphanReference,
        "result_ref '" ++ ref ++ "' not found in results.csv",
        some "indicators.csv", some n, some "result_ref", some ref⟩
    else none) 2 indicatorsRows

/-- The reference-set construction and row loop of
`_check_period_indicator_fk` (cross_file_validator.py lines 163-190),
minus the `_get_filename('indicator_periods')` call at line 176 that in
this source raises, making the loop unreachable; same empty-parent-set
guard as the indicator check. -/
def check_period_indicator_fk_rows (indicatorsRows : List IndicatorsRefRow)
    (periodsRows : List PeriodsRefRow) : List ValidationIssue :=
  let indicator_refs := indicatorsRows.filterMap (fun r =>
    let x := pyStrip r.indicator_ref
    if x ≠ "" then some x else none)
  rowScan (fun n row =>
    let ref := pyStrip row.indicator_ref
    if ref ≠ "" ∧ indicator_refs ≠ [] ∧ ref ∉ indicator_refs then
      some ⟨ValidationLevel.error, ErrorCode.orphanReference,
        "indicator_ref '" ++ ref ++ "' not found in indicators.csv",
        some "indicator_periods.csv", some n, some "indicator_ref", some ref⟩
    else none) 2 periodsRows

theorem rowScan_if_countP {α : Type} (p : α → Prop) [DecidablePred p]
    (mk : Nat → α → ValidationIssue)
    (hmk : ∀ n x, (mk n x).rowNumber = some n ∧
      (mk n x).code = ErrorCode.orphanReference)
    (rows : List α) (j : Nat) (hj : j < rows.length) :
    (rowScan (fun n x => if p x then some (mk n x) else none) 2 rows).countP
        (fun iss => iss.code == ErrorCode.orphanReference &&
          iss.rowNumber == some (2 + j)) =
      if p (rows.get ⟨j, hj⟩) then 1 else 0 := by
  have hf : ∀ n x iss,
      (if p x then some (mk n x) else none) = some iss →
        iss.rowNumber = some n := by
    intro n x iss h
    by_cases hp : p x
    · rw [if_pos hp] at h
      exact (Option.some.inj h) ▸ (hmk n x).1
    · rw [if_neg hp] at h
      exact absurd h (by simp)
  rw [List.countP_eq_length_filter]
  have hsplit : (rowScan (fun n x => if p x then some (mk n x) else none)
        2 rows).filter
      (fun iss => iss.code == ErrorCode.orphanReference &&
        iss.rowNumber == some (2 + j)) =
      ((rowScan (fun n x => if p x then some (mk n x) else none) 2 rows).filter
        (fun iss => iss.rowNumber == some (2 + j))).filter
        (fun iss => iss.code == ErrorCode.orphanReference) := by
    rw [List.filter_filter]
  rw [hsplit, rowScan_filter_eq _ hf 2 j rows hj]
  by_cases hp : p (rows.get ⟨j, hj⟩)
  · rw [if_pos hp, if_pos hp]
    simp only [Option.toList_some, List.filter_cons, List.filter_nil]
    rw [(hmk (2 + j) (rows.get ⟨j, hj⟩)).2]
    simp
  · rw [if_neg hp, if_neg hp]
    rfl

/-- Behaviour the unreachable row loop of `_check_indicator_result_fk`
would have: with an empty results table, an indicator row with the
populated foreign key `"R1"` — absent from the (empty) parent key set —
would produce no ORPHAN_REFERENCE error, because the loop additionally
requires the parent key set to be non-empty; with a non-empty parent key
set lacking `"R1"`, the same row would produce the error. -/
theorem orphan_reference_counterexample :
    check_indicator_result_fk_rows [] [⟨"A", "R1", "I1"⟩] = [] ∧
    check_indicator_result_fk_rows [⟨"A", "R2"⟩] [⟨"A", "R1", "I1"⟩] =
      [⟨ValidationLevel.error, ErrorCode.orphanReference,
        "result_ref 'R1' not found in results.csv",
        some "indicators.csv", some 2, some "result_ref", some "R1"⟩] := by
  constructor <;> rfl

/-- Exact characterization of the (unreachable) row loops: an
ORPHAN_REFERENCE error arises for a child row iff its stripped
foreign-key value is non-empty and absent from the parent table's key
set — and, for the indicator and period loops, only when that parent key
set is itself non-empty; exactly one error per offending row, identified
by its row number (row `j` of the data, 0-based, is reported as row
`2 + j`, the header being row 1). -/
theorem orphan_reference_amended :
    (∀ (fileName : String) (ids : List String) (rows : List ChildRow)
      (j : Nat) (hj : j < rows.length),
      (check_fk_activity_rows fileName ids rows).countP
          (fun iss => iss.code == ErrorCode.orphanReference &&
            iss.rowNumber == some (2 + j)) =
        if pyStrip (rows.get ⟨j, hj⟩).activity_identifier ≠ "" ∧
            pyStrip (rows.get ⟨j, hj⟩).activity_identifier ∉ ids
        then 1 else 0) ∧
    (∀ (resultsRows : List ResultsRefRow) (rows : List IndicatorsRefRow)
      (j : Nat) (hj : j < rows.length),
      (check_indicator_result_fk_rows resultsRows rows).countP
          (fun iss => iss.code == ErrorCode.orphanReference &&
            iss.rowNumber == some (2 + j)) =
        if pyStrip (rows.get ⟨j, hj⟩).result_ref ≠ "" ∧
            (resultsRows.filterMap (fun r =>
              let x := pyStrip r.result_ref
              if x ≠ "" then some x else none)) ≠ [] ∧
            pyStrip (rows.get ⟨j, hj⟩).result_ref ∉
              resultsRows.filterMap (fun r =>
                let x := pyStrip r.result_ref
                if x ≠ "" then some x else none)
        then 1 else 0) ∧
    (∀ (indicatorsRows : List IndicatorsRefRow) (rows : List PeriodsRefRow)
      (j : Nat) (hj : j < rows.length),
      (check_period_indicator_fk_rows indicatorsRows rows).countP
          (fun iss => iss.code == ErrorCode.orphanReference &&
            iss.rowNumber == some (2 + j)) =
        if pyStrip (rows.get ⟨j, hj⟩).indicator_ref ≠ "" ∧
            (indicatorsRows.filterMap (fun r =>
              let x := pyStrip r.indicator_ref
              if x ≠ "" then some x else none)) ≠ [] ∧
            pyStrip (rows.get ⟨j, hj⟩).indicator_ref ∉
              indicatorsRows.filterMap (fun r =>
                let x := pyStrip r.indicator_ref
                if x ≠ "" then some x else none)
        then 1 else 0) := by
  refine ⟨?_, ?_, ?_⟩
  · intro fileName ids rows j hj
    exact rowScan_if_countP
      (fun row => pyStrip row.activity_identifier ≠ "" ∧
        pyStrip row.activity_identifier ∉ ids)
      (fun n row => ⟨ValidationLevel.error, ErrorCode.orphanReference,
        "activity_identifier '" ++ pyStrip row.activity_identifier ++
          "' not found in activities.csv",
        some fileName, some n, some "activity_identifier",
        some (pyStrip row.activity_identifier)⟩)
      (fun _ _ => ⟨rfl, rfl⟩) rows j hj
  · intro resultsRows rows j hj
    exact rowScan_if_countP
      (fun row => pyStrip row.result_ref ≠ "" ∧
        (resultsRows.filterMap (fun r =>
          let x := pyStrip r.result_ref
          if x ≠ "" then some x else none)) ≠ [] ∧
        pyStrip row.result_ref ∉ resultsRows.filterMap (fun r =>
          let x := pyStrip r.result_ref
          if x ≠ "" then some x else none))
      (fun n row => ⟨ValidationLevel.error, ErrorCode.orphanReference,
        "result_ref '" ++ pyStrip row.result_ref ++
          "' not found in results.csv",
        some "indicators.csv", some n, some "result_ref",
        some (pyStrip row.result_ref)⟩)
      (fun _ _ => ⟨rfl, rfl⟩) rows j hj
  · intro indicatorsRows rows j hj
    exact rowScan_if_countP
      (fun row => pyStrip row.indicator_ref ≠ "" ∧
        (indicatorsRows.filterMap (fun r =>
          let x := pyStrip r.indicator_ref
          if x ≠ "" then some x else none)) ≠ [] ∧
        pyStrip row.indicator_ref ∉ indicatorsRows.filterMap (fun r =>
          let x := pyStrip r.indicator_ref
          if x ≠ "" then some x else none))
      (fun n row => ⟨ValidationLevel.error, ErrorCode.orphanReference,
        "indicator_ref '" ++ pyStrip row.indicator_ref ++
          "' not found in indicators.csv",
        some "indicator_periods.csv", some n, some "indicator_ref",
        some (pyStrip row.indicator_ref)⟩)
      (fun _ _ => ⟨rfl, rfl⟩) rows j hj

/-- The row-loop characterization at concrete tables: a transaction row
referencing `ORG-999` when only `ORG-001` exists would yield exactly one
ORPHAN_REFERENCE error; likewise for the indicator and period loops with
non-empty parent key sets. -/
theorem orphan_reference_amended_witness :
    (check_fk_activity_rows "transactions.csv" ["ORG-001"] [⟨"ORG-999"⟩]).countP
        (fun iss => iss.code == ErrorCode.orphanReference &&
          iss.rowNumber == some (2 + 0)) = 1 ∧
    (check_indicator_result_fk_rows [⟨"A", "R2"⟩]
        [⟨"A", "R1", "I1"⟩]).countP
        (fun iss => iss.code == ErrorCode.orphanReference &&
          iss.rowNumber == some (2 + 0)) = 1 ∧
    (check_period_indicator_fk_rows [⟨"A", "R1", "I1"⟩] [⟨"A", "I9"⟩]).countP
        (fun iss => iss.code == ErrorCode.orphanReference &&
          iss.rowNumber == some (2 + 0)) = 1 := by
  refine ⟨?_, ?_, ?_⟩
  · rw [orphan_reference_amended.1 "transactions.csv" ["ORG-001"]
      [⟨"ORG-999"⟩] 0 (by decide)]
    rfl
  · rw [orphan_reference_amended.2.1 [⟨"A", "R2"⟩] [⟨"A", "R1", "I1"⟩] 0
      (by decide)]
    rfl
  · rw [orphan_reference_amended.2.2 [⟨"A", "R1", "I1"⟩] [⟨"A", "I9"⟩] 0
      (by decide)]
    rfl

/-! ### Sector percentage sums (C4) -/

/-- A row of `sectors.csv` as seen by `_check_sector_percentages`. -/
structure SectorsRow where
  activity_identifier : String
  percentage : String
deriving DecidableEq

/-- The key under which a sectors row contributes to the sums dict
(cross_file_validator.py lines 110-117): the stripped activity id, but
only when both the stripped id and the stripped percentage are truthy. -/
def sectorAid? (r : SectorsRow) : Option String :=
  let aid := pyStrip r.activity_identifier
  let pct := pyStrip r.percentage
  if aid ≠ "" ∧ pct ≠ "" then some aid else none

/-- One row's contribution `(float(pct), True)`; on a `ValueError` the
`defaultdict` entry has already been created by `sums[aid] +=`'s
`__getitem__`, so the row still contributes `(0, False)`. -/
def sectorContrib (r : SectorsRow) : ℚ × Bool :=
  match pyFloat? (pyStrip r.percentage) with
  | some q => (q, true)
  | none => (0, false)

/-- The `sums` / `has_pct` dicts of `_check_sector_percentages`, keyed by
activity id in insertion order. -/
def sector_percentage_sums (rows : List SectorsRow) : List (String × ℚ × Bool) :=
  pyDictFold sectorAid? sectorContrib
    (fun b r => (b.1 + (sectorContrib r).1, b.2 || (sectorContrib r).2)) [] rows

/-- The PERCENTAGE_SUM warning for one activity (the message renders the
rational total where Python renders its float). -/
def percentage_sum_issue (aid : String) (total : ℚ) : ValidationIssue :=
  ⟨ValidationLevel.warning, ErrorCode.percentageSum,
    "Sector percentages for activity '" ++ aid ++ "' sum to " ++
      toString total ++ ", expected ~100",
    some "sectors.csv", none, some "percentage", none⟩

/-- `_check_sector_percentages` (cross_file_validator.py lines 103-132):
a warning per summed activity with a parseable percentage whose total
deviates from 100 by more than 0.01. -/
def check_sector_percentages (rows : List SectorsRow) : List ValidationIssue :=
  (sector_percentage_sums rows).filterMap (fun e =>
    if e.2.2 ∧ (1 : ℚ)/100 < |e.2.1 - 100| then
      some (percentage_sum_issue e.1 e.2.1)
    else none)

/-- Spec-side: the sum of the parseable populated percentages of the
rows contributing under activity key `aid`. -/
def specSectorSum (rows : List SectorsRow) (aid : String) : ℚ :=
  (rows.filterMap (fun r =>
    if sectorAid? r = some aid then pyFloat? (pyStrip r.percentage)
    else none)).sum

/-- Spec-side: some row contributes a parseable populated percentage
under activity key `aid`. -/
def specSectorHasPct (rows : List SectorsRow) (aid : String) : Bool :=
  rows.any (fun r =>
    sectorAid? r == some aid && (pyFloat? (pyStrip r.percentage)).isSome)

/-- Spec-side: the contributing activity keys in first-occurrence order. -/
def specSectorKeys (rows : List SectorsRow) : List String :=
  (dedupByKey id [] (rows.filterMap sectorAid?)).1

theorem specSectorSum_cons_hit {r : SectorsRow} {k : String} (l : List SectorsRow)
    (h : sectorAid? r = some k) :
    specSectorSum (r :: l) k = (sectorContrib r).1 + specSectorSum l k := by
  simp only [specSectorSum, List.filterMap_cons, h, if_pos rfl]
  cases hp : pyFloat? (pyStrip r.percentage) with
  | none => simp [sectorContrib, hp]
  | some q => simp [sectorContrib, hp]

theorem specSectorSum_cons_miss {r : SectorsRow} {k : String} (l : List SectorsRow)
    (h : ¬ sectorAid? r = some k) :
    specSectorSum (r :: l) k = specSectorSum l k := by
  simp only [specSectorSum, List.filterMap_cons, if_neg h]

theorem specSectorHasPct_cons_hit {r : SectorsRow} {k : String} (l : List SectorsRow)
    (h : sectorAid? r = some k) :
    specSectorHasPct (r :: l) k = ((sectorContrib r).2 || specSectorHasPct l k) := by
  simp only [specSectorHasPct, List.any_cons, h]
  cases hp : pyFloat? (pyStrip r.percentage) with
  | none => simp [sectorContrib, hp]
  | some q => simp [sectorContrib, hp]

theorem specSectorHasPct_cons_miss {r : SectorsRow} {k : String} (l : List SectorsRow)
    (h : ¬ sectorAid? r = some k) :
    specSectorHasPct (r :: l) k = specSectorHasPct l k := by
  simp only [specSectorHasPct, List.any_cons]
  have : (sectorAid? r == some k) = false := by
    simpa using h
  simp [this]

theorem sector_rest_spec (k : String) (b : ℚ × Bool) (l : List SectorsRow) :
    pyDictRest sectorAid?
        (fun b r => (b.1 + (sectorContrib r).1, b.2 || (sectorContrib r).2))
        k b l =
      (b.1 + specSectorSum l k, b.2 || specSectorHasPct l k) := by
  induction l generalizing b with
  | nil => simp [pyDictRest, specSectorSum, specSectorHasPct]
  | cons r l ih =>
      simp only [pyDictRest, List.foldl_cons] at ih ⊢
      by_cases h : sectorAid? r = some k
      · rw [if_pos h, ih, specSectorSum_cons_hit l h, specSectorHasPct_cons_hit l h]
        refine congrArg₂ Prod.mk (by ring) (by simp [Bool.or_assoc])
      · rw [if_neg h, ih, specSectorSum_cons_miss l h, specSectorHasPct_cons_miss l h]

theorem sector_new_spec (seen : List String) (rows : List SectorsRow) :
    pyDictNew sectorAid? sectorContrib
        (fun b r => (b.1 + (sectorContrib r).1, b.2 || (sectorContrib r).2))
        seen rows =
      (dedupByKey id seen (rows.filterMap sectorAid?)).1.map
        (fun k => (k, specSectorSum rows k, specSectorHasPct rows k)) := by
  induction rows generalizing seen with
  | nil => simp [pyDictNew, dedupByKey]
  | cons r rest ih =>
      cases hkey : sectorAid? r with
      | none =>
          simp only [pyDictNew, hkey, List.filterMap_cons, ih seen]
          refine List.map_congr_left ?_
          intro k _
          have hne : ¬ sectorAid? r = some k := by simp [hkey]
          rw [specSectorSum_cons_miss rest hne, specSectorHasPct_cons_miss rest hne]
      | some k0 =>
          simp only [pyDictNew, hkey, List.filterMap_cons]
          by_cases hk : k0 ∈ seen
          · rw [if_pos hk, ih seen]
            have hdk : dedupByKey id seen (k0 :: rest.filterMap sectorAid?) =
                dedupByKey id seen (rest.filterMap sectorAid?) := by
              rw [dedupByKey]
              simp only [id_eq]
              rw [if_pos hk]
            rw [hdk]
            refine List.map_congr_left ?_
            intro k hkmem
            have hknot : k ∉ seen :=
              dedupByKey_not_mem_seen id seen _ k hkmem
            have hne : ¬ sectorAid? r = some k := by
              rw [hkey]
              intro hcontra
              exact hknot ((Option.some.inj hcontra) ▸ hk)
            rw [specSectorSum_cons_miss rest hne, specSectorHasPct_cons_miss rest hne]
          · rw [if_neg hk]
            have hdk : (dedupByKey id seen (k0 :: rest.filterMap sectorAid?)).1 =
                k0 :: (dedupByKey id (k0 :: seen) (rest.filterMap sectorAid?)).1 := by
              rw [dedupByKey]
              simp only [id_eq]
              rw [if_neg hk]
            rw [hdk, List.map_cons]
            refine congrArg₂ List.cons ?_ ?_
            · rw [sector_rest_spec]
              have hhit : sectorAid? r = some k0 := hkey
              rw [specSectorSum_cons_hit rest hhit, specSectorHasPct_cons_hit rest hhit]
            · rw [ih (k0 :: seen)]
              refine List.map_congr_left ?_
              intro k hkmem
              have hknot : k ∉ k0 :: seen :=
                dedupByKey_not_mem_seen id (k0 :: seen) _ k hkmem
              have hne : ¬ sectorAid? r = some k := by
                rw [hkey]
                intro hcontra
                exact hknot ((Option.some.inj hcontra) ▸ List.mem_cons_self k0 seen)
              rw [specSectorSum_cons_miss rest hne, specSectorHasPct_cons_miss rest hne]

theorem sector_percentage_sums_spec (rows : List SectorsRow) :
    sector_percentage_sums rows =
      (specSectorKeys rows).map
        (fun k => (k, specSectorSum rows k, specSectorHasPct rows k)) := by
  rw [sector_percentage_sums, pyDictFold_spec]
  simp only [List.map_nil, List.nil_append]
  exact sector_new_spec [] rows

/-- Behaviour of the isolated `_check_sector_percentages` helper
(cross_file_validator.py lines 103-132), which `validate` reaches only
after the crashing FK pass: a PERCENTAGE_SUM warning (never an error)
would be emitted for an activity iff at least one of its sector rows
carries a populated, parseable percentage and the sum of the parseable
populated percentages deviates from 100 by more than 0.01; the warnings
never flip validity; a 60+30 split warns while a 60+40 split does
not. -/
theorem percentage_sum_warning_iff :
    (∀ rows : List SectorsRow,
      check_sector_percentages rows =
        (specSectorKeys rows).filterMap (fun aid =>
          if specSectorHasPct rows aid ∧
              (1 : ℚ)/100 < |specSectorSum rows aid - 100| then
            some (percentage_sum_issue aid (specSectorSum rows aid))
          else none)) ∧
    (∀ rows : List SectorsRow, ∀ iss ∈ check_sector_percentages rows,
      iss.level = ValidationLevel.warning) ∧
    (∀ (rows : List SectorsRow) (pre : List ValidationIssue),
      isValid (pre ++ check_sector_percentages rows) = isValid pre) ∧
    check_sector_percentages [⟨"A", "60"⟩, ⟨"A", "30"⟩] =
      [percentage_sum_issue "A" 90] ∧
    check_sector_percentages [⟨"A", "60"⟩, ⟨"A", "40"⟩] = [] := by
  have hchar : ∀ rows : List SectorsRow,
      check_sector_percentages rows =
        (specSectorKeys rows).filterMap (fun aid =>
          if specSectorHasPct rows aid ∧
              (1 : ℚ)/100 < |specSectorSum rows aid - 100| then
            some (percentage_sum_issue aid (specSectorSum rows aid))
          else none) := by
    intro rows
    rw [check_sector_percentages, sector_percentage_sums_spec,
      List.filterMap_map]
    rfl
  have hwarn : ∀ rows : List SectorsRow, ∀ iss ∈ check_sector_percentages rows,
      iss.level = ValidationLevel.warning := by
    intro rows iss hiss
    rw [check_sector_percentages] at hiss
    obtain ⟨e, _, he⟩ := List.mem_filterMap.1 hiss
    by_cases hc : e.2.2 ∧ (1 : ℚ)/100 < |e.2.1 - 100|
    · rw [if_pos hc] at he
      rw [← Option.some.inj he]
      rfl
    · rw [if_neg hc] at he
      exact absurd he (by simp)
  have hvalid : ∀ (rows : List SectorsRow) (pre : List ValidationIssue),
      isValid (pre ++ check_sector_percentages rows) = isValid pre := by
    intro rows pre
    rw [isValid, isValid, List.any_append]
    have : (check_sector_percentages rows).any
        (fun i => i.level == ValidationLevel.error) = false := by
      rw [List.any_eq_false]
      intro iss hiss
      rw [hwarn rows iss hiss]
      decide
    rw [this, Bool.or_false]
  have hsum1 : specSectorSum [⟨"A", "60"⟩, ⟨"A", "30"⟩] "A" = 90 := by
    have h : specSectorSum [⟨"A", "60"⟩, ⟨"A", "30"⟩] "A" =
        ((60 : Nat) : ℚ) + (((30 : Nat) : ℚ) + 0) := rfl
    rw [h]
    norm_num
  have hsum2 : specSectorSum [⟨"A", "60"⟩, ⟨"A", "40"⟩] "A" = 100 := by
    have h : specSectorSum [⟨"A", "60"⟩, ⟨"A", "40"⟩] "A" =
        ((60 : Nat) : ℚ) + (((40 : Nat) : ℚ) + 0) := rfl
    rw [h]
    norm_num
  refine ⟨hchar, hwarn, hvalid, ?_, ?_⟩
  · rw [hchar]
    rw [show specSectorKeys [⟨"A", "60"⟩, ⟨"A", "30"⟩] = ["A"] from rfl]
    have hcond : specSectorHasPct [⟨"A", "60"⟩, ⟨"A", "30"⟩] "A" ∧
        (1 : ℚ)/100 < |specSectorSum [⟨"A", "60"⟩, ⟨"A", "30"⟩] "A" - 100| := by
      refine ⟨by rfl, ?_⟩
      rw [hsum1]
      norm_num
    simp only [List.filterMap_cons, List.filterMap_nil, if_pos hcond]
    rw [hsum1]
  · rw [hchar]
    rw [show specSectorKeys [⟨"A", "60"⟩, ⟨"A", "40"⟩] = ["A"] from rfl]
    have hcond : ¬(specSectorHasPct [⟨"A", "60"⟩, ⟨"A", "40"⟩] "A" ∧
        (1 : ℚ)/100 < |specSectorSum [⟨"A", "60"⟩, ⟨"A", "40"⟩] "A" - 100|) := by
      rintro ⟨-, hlt⟩
      rw [hsum2] at hlt
      norm_num at hlt
    simp only [List.filterMap_cons, List.filterMap_nil, if_neg hcond]

/-- The percentage helper at the 60+30 split: the single issue it would
emit is a warning, and appending its output to an empty issue list
leaves validity unchanged. -/
theorem percentage_sum_warning_iff_witness :
    (percentage_sum_issue "A" 90).level = ValidationLevel.warning ∧
    isValid ([] ++ check_sector_percentages [⟨"A", "60"⟩, ⟨"A", "30"⟩]) =
      isValid [] :=
  ⟨percentage_sum_warning_iff.2.1 [⟨"A", "60"⟩, ⟨"A", "30"⟩]
      (percentage_sum_issue "A" 90)
      (by rw [percentage_sum_warning_iff.2.2.2.1]; exact List.mem_singleton.2 rfl),
    percentage_sum_warning_iff.2.2.1 [⟨"A", "60"⟩, ⟨"A", "30"⟩] []⟩

/-! ### The class-level `csv_files` attribute error (C3, C4, C5)

`multi_csv_converter.IatiMultiCsvConverter` assigns `csv_files` only on
instances (`self.csv_files = {...}` in `__init__`, multi_csv_converter.py
line 49); the class object carries no such attribute. Both
`cross_file_validator._get_filename` (cross_file_validator.py line 77)
and the per-file validators' `file_name` / `expected_columns`
properties (csv_validators/base.py lines 57-66) read
`IatiMultiCsvConverter.csv_files` at class level on that module's
class, so they raise `AttributeError` — unlike `folder_validator`,
which imports the class-level schema from `okfn_iati.activities`. -/

/-- A raised Python exception. -/
inductive PyError where
  | attributeError (msg : String)
  | keyError (msg : String)
deriving DecidableEq

/-- The failure of the class-level lookup. -/
def csvFilesAttrError : PyError :=
  PyError.attributeError
    "type object 'IatiMultiCsvConverter' has no attribute 'csv_files'"

/-- The class-attribute lookup
`multi_csv_converter.IatiMultiCsvConverter.csv_files`: the attribute
exists only on instances, so the lookup raises and never yields a
value; `β` is whatever type the (dead) continuation expects. -/
def old_converter_class_csv_files (β : Type) : Except PyError β :=
  Except.error csvFilesAttrError

/-- `_get_filename` (cross_file_validator.py lines 74-78): reads the
class-level `csv_files` — raising — and would then take the entry's
filename with default `{csv_key}.csv`. -/
def get_filename (csv_key : String) : Except PyError String :=
  (old_converter_class_csv_files (List (String × String))).map
    (fun cfgs => (cfgs.lookup csv_key).getD (csv_key ++ ".csv"))

/-- `_check_fk_activity` (cross_file_validator.py lines 80-101) as it
actually executes: the `_get_filename` call at line 87 precedes the row
loop, so the method raises before scanning any row. -/
def check_fk_activity (csv_key : String) (ids : List String)
    (rows : List ChildRow) : Except PyError (List ValidationIssue) := do
  let fileName ← get_filename csv_key
  pure (check_fk_activity_rows fileName ids rows)

/-- `_check_indicator_result_fk` (cross_file_validator.py lines 134-161)
as it actually executes: `result_refs` is built, then
`_get_filename('indicators')` at line 147 raises before the row loop. -/
def check_indicator_result_fk (resultsRows : List ResultsRefRow)
    (indicatorsRows : List IndicatorsRefRow) :
    Except PyError (List ValidationIssue) := do
  let _ ← get_filename "indicators"
  pure (check_indicator_result_fk_rows resultsRows indicatorsRows)

/-- `_check_period_indicator_fk` (cross_file_validator.py lines 163-190)
as it actually executes: `_get_filename('indicator_periods')` at line
176 raises before the row loop. -/
def check_period_indicator_fk (indicatorsRows : List IndicatorsRefRow)
    (periodsRows : List PeriodsRefRow) :
    Except PyError (List ValidationIssue) := do
  let _ ← get_filename "indicator_periods"
  pure (check_period_indicator_fk_rows indicatorsRows periodsRows)

/-- The `fk_keys` list of `CrossFileValidator.validate`
(cross_file_validator.py lines 31-37). -/
def fk_keys : List String :=
  ["participating_orgs", "sectors", "budgets", "transactions",
   "transaction_sectors", "locations", "documents", "results",
   "indicators", "indicator_periods", "activity_date", "contact_info",
   "conditions", "descriptions", "country_budget_items"]

/-- The `file_data` dict handed to `CrossFileValidator.validate`,
restricted to the columns the checks read: the tables the claims
exercise appear typed; every other present child table contributes its
`activity_identifier` column. -/
structure CrossFileData where
  activities : Option (List ActivitiesIdRow)
  sectors : Option (List SectorsRow)
  results : Option (List ResultsRefRow)
  indicators : Option (List IndicatorsRefRow)
  indicator_periods : Option (List PeriodsRefRow)
  others : List (String × List ChildRow)

/-- The `activity_identifier` column of the table stored under `key`;
`none` when the table is absent from the folder data. -/
def fkRowsFor (d : CrossFileData) (key : String) : Option (List ChildRow) :=
  if key = "sectors" then
    d.sectors.map (List.map (fun r => ⟨r.activity_identifier⟩))
  else if key = "results" then
    d.results.map (List.map (fun r => ⟨r.activity_identifier⟩))
  else if key = "indicators" then
    d.indicators.map (List.map (fun r => ⟨r.activity_identifier⟩))
  else if key = "indicator_periods" then
    d.indicator_periods.map (List.map (fun r => ⟨r.activity_identifier⟩))
  else d.others.lookup key

/-- `CrossFileValidator.validate` (cross_file_validator.py lines
15-60): the FK pass over `fk_keys` runs first, then the
sector-percentage check, then the result and period chains; a raised
exception propagates out of `validate`. -/
def cross_file_validate (d : CrossFileData) :
    Except PyError (List ValidationIssue) := do
  let ids := get_activity_ids (d.activities.getD [])
  let fkIssues ← fk_keys.foldlM (fun acc key =>
    match fkRowsFor d key with
    | some rows => do
        let issues ← check_fk_activity key ids rows
        pure (acc ++ issues)
    | none => pure acc) []
  let pctIssues :=
    match d.sectors with
    | some rows => check_sector_percentages rows
    | none => []
  let indIssues ←
    match d.results, d.indicators with
    | some rs, some irows => check_indicator_result_fk rs irows
    | _, _ => pure []
  let perIssues ←
    match d.indicators, d.indicator_periods with
    | some irows, some ps => check_period_indicator_fk irows ps
    | _, _ => pure []
  pure (fkIssues ++ pctIssues ++ indIssues ++ perIssues)

/-- C3: the cross-table reference checks crash instead of reporting. At
a transactions row referencing `ORG-999` when only `ORG-001` exists —
where the claim expects exactly one ORPHAN_REFERENCE error —
`_check_fk_activity` raises `AttributeError` in its very first
statement (`_get_filename`, whose class-level `csv_files` lookup
fails), as do the indicator and period chain checks and the full
validator, so no ORPHAN_REFERENCE error is ever emitted. -/
theorem orphan_reference_checks_crash :
    check_fk_activity "transactions" (get_activity_ids [⟨"ORG-001"⟩])
      [⟨"ORG-999"⟩] = Except.error csvFilesAttrError ∧
    cross_file_validate
      ⟨some [⟨"ORG-001"⟩], none, none, none, none,
        [("transactions", [⟨"ORG-999"⟩])]⟩ =
      Except.error csvFilesAttrError ∧
    check_indicator_result_fk [⟨"A", "R2"⟩] [⟨"A", "R1", "I1"⟩] =
      Except.error csvFilesAttrError ∧
    check_period_indicator_fk [⟨"A", "R1", "I1"⟩] [⟨"A", "I9"⟩] =
      Except.error csvFilesAttrError :=
  ⟨rfl, rfl, rfl, rfl⟩

/-- C4: the PERCENTAGE_SUM warning is unreachable through the
cross-table validator. At an activities table with activity `A` and a
sectors table splitting 60+30 — where the claim expects one warning —
`CrossFileValidator.validate` raises `AttributeError` in the FK pass on
the sectors table, before `_check_sector_percentages` runs; the
isolated percentage helper itself would warn exactly as claimed (see
`percentage_sum_warning_iff`), but is never reached. -/
theorem percentage_sum_unreachable :
    cross_file_validate
      ⟨some [⟨"A"⟩], some [⟨"A", "60"⟩, ⟨"A", "30"⟩], none, none, none, []⟩ =
      Except.error csvFilesAttrError ∧
    check_sector_percentages [⟨"A", "60"⟩, ⟨"A", "30"⟩] =
      [percentage_sum_issue "A" 90] :=
  ⟨rfl, percentage_sum_warning_iff.2.2.2.1⟩

/-! ### Declarative per-column rules (C5) -/

/-- `ColumnRule` (csv_validators/base.py lines 19-31): a column name, a
required flag, and `(check-function, error-code)` pairs. -/
structure ColumnRule where
  column : String
  required : Bool
  validators : List ((String → Option String) × ErrorCode)

/-- `rules_map = {r.column: r for r in self.column_rules}` (base.py
line 107) — Python dict semantics: a later rule with the same column
replaces the earlier one in place. -/
def rules_map (rules : List ColumnRule) : List ColumnRule :=
  (pyDictFold (fun r => some r.column) id (fun _ r => r) [] rules).map (·.2)

/-- One cell of `BaseCsvValidator.validate` (base.py lines 108-135):
a required empty cell yields a REQUIRED_FIELD error and skips the check
functions; a non-empty cell runs every check function on the stripped
value, a truthy message becoming an error with the paired code, the file
name, the row number, the column and the stripped value. -/
def validate_cell (fileName : String) (rowIdx : Nat) (row : String → String)
    (rule : ColumnRule) : List ValidationIssue :=
  let value := row rule.column
  if rule.required ∧ pyStrip value = "" then
    [⟨ValidationLevel.error, ErrorCode.requiredField,
      "Required field '" ++ rule.column ++ "' is empty",
      some fileName, some rowIdx, some rule.column, some value⟩]
  else if pyStrip value ≠ "" then
    rule.validators.filterMap (fun p =>
      match p.1 (pyStrip value) with
      | some msg =>
          if msg = "" then none
          else some ⟨ValidationLevel.error, p.2, msg,
            some fileName, some rowIdx, some rule.column, some (pyStrip value)⟩
      | none => none)
  else []

/-- All issues produced for one data row. -/
def validate_row (fileName : String) (rules : List ColumnRule) (rowIdx : Nat)
    (row : String → String) : List ValidationIssue :=
  (rules_map rules).flatMap (validate_cell fileName rowIdx row)

/-- The per-row loop of `validate` (base.py line 108), rows enumerated
from 2 because the header is row 1. -/
def validate_rows (fileName : String) (rules : List ColumnRule) :
    Nat → List (String → String) → List ValidationIssue
  | _, [] => []
  | n, row :: rest =>
      validate_row fileName rules n row ++
        validate_rows fileName rules (n + 1) rest

theorem pyDictRest_of_no_match {α β : Type} (key? : α → Option String)
    (upd : β → α → β) (k : String) :
    ∀ (l : List α) (b : β), (∀ a ∈ l, key? a ≠ some k) →
      pyDictRest key? upd k b l = b := by
  intro l
  induction l with
  | nil => intro b _; rfl
  | cons x xs ih =>
      intro b h
      simp only [pyDictRest, List.foldl_cons]
      rw [if_neg (h x (List.mem_cons_self x xs))]
      exact ih b (fun a ha => h a (List.mem_cons_of_mem x ha))

theorem pyDictNew_of_nodup {α β : Type} (key? : α → Option String)
    (init : α → β) (upd : β → α → β) :
    ∀ (l : List α) (seen : List String),
      (l.filterMap key?).Nodup →
      (∀ a ∈ l, ∀ k, key? a = some k → k ∉ seen) →
      pyDictNew key? init upd seen l =
        l.filterMap (fun a => (key? a).map (fun k => (k, init a))) := by
  intro l
  induction l with
  | nil => intro seen _ _; rfl
  | cons x xs ih =>
      intro seen hnd hseen
      cases hkey : key? x with
      | none =>
          simp only [pyDictNew, hkey, List.filterMap_cons, Option.map_none]
          refine ih seen ?_ ?_
          · simpa [List.filterMap_cons, hkey] using hnd
          · intro a ha k hk
            exact hseen a (List.mem_cons_of_mem x ha) k hk
      | some k =>
          have hk_not_seen : k ∉ seen := hseen x (List.mem_cons_self x xs) k hkey
          have hnd' : ((x :: xs).filterMap key?) = k :: xs.filterMap key? := by
            simp [List.filterMap_cons, hkey]
          rw [hnd'] at hnd
          have hk_not_xs : k ∉ xs.filterMap key? := (List.nodup_cons.1 hnd).1
          simp only [pyDictNew, hkey, List.filterMap_cons, Option.map_some]
          rw [if_neg hk_not_seen]
          refine congrArg₂ List.cons ?_ ?_
          · refine congrArg _ ?_
            refine pyDictRest_of_no_match key? upd k xs (init x) ?_
            intro a ha hcontra
            exact hk_not_xs (List.mem_filterMap.2 ⟨a, ha, hcontra⟩)
          · refine ih (k :: seen) (List.nodup_cons.1 hnd).2 ?_
            intro a ha k' hk'
            intro hmem
            rcases List.mem_cons.1 hmem with rfl | hmem'
            · exact hk_not_xs (List.mem_filterMap.2 ⟨a, ha, hk'⟩)
            · exact hseen a (List.mem_cons_of_mem x ha) k' hk' hmem'

theorem rules_map_of_nodup (rules : List ColumnRule)
    (h : (rules.map (·.column)).Nodup) : rules_map rules = rules := by
  rw [rules_map, pyDictFold_spec]
  simp only [List.map_nil, List.nil_append]
  rw [pyDictNew_of_nodup]
  · rw [show (fun (a : ColumnRule) =>
        ((fun r => some r.column) a).map (fun k => (k, id a))) =
        (fun (a : ColumnRule) => some (a.column, a)) from rfl]
    rw [show (fun (a : ColumnRule) => some (a.column, a)) =
        some ∘ (fun (a : ColumnRule) => (a.column, a)) from rfl]
    rw [List.filterMap_eq_map, List.map_map]
    exact List.map_id rules
  · rw [show (fun (r : ColumnRule) => some r.column) =
        some ∘ (fun (r : ColumnRule) => r.column) from rfl]
    rw [List.filterMap_eq_map]
    exact h
  · intro a _ k _
    exact List.not_mem_nil k

theorem listCountPFlatMap {α : Type} (f : α → List ValidationIssue)
    (p : ValidationIssue → Bool) (l : List α) :
    (l.flatMap f).countP p = (l.map (fun a => (f a).countP p)).sum := by
  induction l with
  | nil => rfl
  | cons x xs ih => simp [List.flatMap_cons, List.countP_append, ih]

theorem listFilterFlatMap {α : Type} (f : α → List ValidationIssue)
    (p : ValidationIssue → Bool) (l : List α) :
    (l.flatMap f).filter p = l.flatMap (fun a => (f a).filter p) := by
  induction l with
  | nil => rfl
  | cons x xs ih => simp [List.flatMap_cons, List.filter_append, ih]

theorem validate_cell_required_count (fileName : String) (rowIdx : Nat)
    (row : String → String) (rule : ColumnRule)
    (hnorf : ∀ p ∈ rule.validators, p.2 ≠ ErrorCode.requiredField) :
    (validate_cell fileName rowIdx row rule).countP
        (fun i => i.code == ErrorCode.requiredField) =
      if rule.required ∧ pyStrip (row rule.column) = "" then 1 else 0 := by
  rw [validate_cell]
  by_cases h1 : rule.required ∧ pyStrip (row rule.column) = ""
  · rw [if_pos h1, if_pos h1]
    rfl
  · rw [if_neg h1, if_neg h1]
    by_cases h2 : pyStrip (row rule.column) ≠ ""
    · rw [if_pos h2]
      rw [List.countP_eq_zero]
      intro iss hiss
      obtain ⟨q, hq, hqe⟩ := List.mem_filterMap.1 hiss
      cases hm : q.1 (pyStrip (row rule.column)) with
      | none =>
          simp only [hm] at hqe
          exact absurd hqe (by simp)
      | some msg =>
          simp only [hm] at hqe
          by_cases hmsg : msg = ""
          · rw [if_pos hmsg] at hqe
            exact absurd hqe (by simp)
          · rw [if_neg hmsg] at hqe
            have : iss.code = q.2 := by
              rw [← Option.some.inj hqe]
            simp only [this, beq_iff_eq]
            exact hnorf q hq
    · rw [if_neg h2]
      rfl

theorem validate_cell_columnName (fileName : String) (rowIdx : Nat)
    (row : String → String) (rule : ColumnRule) :
    ∀ iss ∈ validate_cell fileName rowIdx row rule,
      iss.columnName = some rule.column := by
  intro iss hiss
  rw [validate_cell] at hiss
  by_cases h1 : rule.required ∧ pyStrip (row rule.column) = ""
  · rw [if_pos h1] at hiss
    rw [List.mem_singleton.1 hiss]
  · rw [if_neg h1] at hiss
    by_cases h2 : pyStrip (row rule.column) ≠ ""
    · rw [if_pos h2] at hiss
      obtain ⟨q, _, hqe⟩ := List.mem_filterMap.1 hiss
      cases hm : q.1 (pyStrip (row rule.column)) with
      | none =>
          simp only [hm] at hqe
          exact absurd hqe (by simp)
      | some msg =>
          simp only [hm] at hqe
          by_cases hmsg : msg = ""
          · rw [if_pos hmsg] at hqe
            exact absurd hqe (by simp)
          · rw [if_neg hmsg] at hqe
            rw [← Option.some.inj hqe]
    · rw [if_neg h2] at hiss
      exact absurd hiss (List.not_mem_nil iss)

theorem flatMap_filter_single_column (fileName : String) (rowIdx : Nat)
    (row : String → String) :
    ∀ (rules : List ColumnRule), (rules.map (·.column)).Nodup →
      ∀ r ∈ rules,
        (rules.flatMap (validate_cell fileName rowIdx row)).filter
            (fun iss => iss.columnName == some r.column) =
          validate_cell fileName rowIdx row r := by
  intro rules
  induction rules with
  | nil => intro _ r hr; exact absurd hr (List.not_mem_nil r)
  | cons x xs ih =>
      intro hnd r hr
      rw [List.map_cons] at hnd
      have hnd' := List.nodup_cons.1 hnd
      rw [List.flatMap_cons, List.filter_append]
      rcases List.mem_cons.1 hr with rfl | hr'
      · have hx : (validate_cell fileName rowIdx row r).filter
            (fun iss => iss.columnName == some r.column) =
            validate_cell fileName rowIdx row r := by
          rw [List.filter_eq_self]
          intro iss hiss
          rw [validate_cell_columnName fileName rowIdx row r iss hiss]
          simp
        have hxs : (xs.flatMap (validate_cell fileName rowIdx row)).filter
            (fun iss => iss.columnName == some r.column) = [] := by
          rw [listFilterFlatMap, List.flatMap_eq_nil_iff]
          intro r' hr'
          rw [List.filter_eq_nil_iff]
          intro iss hiss
          rw [validate_cell_columnName fileName rowIdx row r' iss hiss]
          have : r'.column ≠ r.column := by
            intro hcontra
            exact hnd'.1 (hcontra ▸ List.mem_map_of_mem (·.column) hr')
          simp [this]
        rw [hx, hxs, List.append_nil]
      · have hx : (validate_cell fileName rowIdx row x).filter
            (fun iss => iss.columnName == some r.column) = [] := by
          rw [List.filter_eq_nil_iff]
          intro iss hiss
          rw [validate_cell_columnName fileName rowIdx row x iss hiss]
          have : x.column ≠ r.column := by
            intro hcontra
            exact hnd'.1 (hcontra ▸ List.mem_map_of_mem (·.column) hr')
          simp [this]
        rw [hx, List.nil_append]
        exact ih hnd'.2 r hr'

theorem validate_rows_eq (fileName : String) (rules : List ColumnRule) :
    ∀ (n : Nat) (rows : List (String → String)),
      validate_rows fileName rules n rows =
        (rows.enumFrom n).flatMap
          (fun p => validate_row fileName rules p.1 p.2) := by
  intro n rows
  induction rows generalizing n with
  | nil => rfl
  | cons row rest ih =>
      simp only [validate_rows, List.enumFrom, List.flatMap_cons, ih (n + 1)]

/-- Behaviour of the per-row rule loop of `BaseCsvValidator.validate`
(csv_validators/base.py lines 104-135), run in isolation — the method
itself crashes at line 102 before reaching it: per data row, the number
of REQUIRED_FIELD errors equals exactly
the number of ruled-required columns whose cell strips to empty (no
cross-column short-circuiting); an empty required cell suppresses only
that cell's checks, and every non-empty ruled cell runs all of its
paired check functions, each truthy failure message reported as an error
with the paired code, the file name, the row number, the column name and
the stripped offending value; data rows are numbered from 2, the header
being row 1. -/
theorem required_field_count_exact :
    (∀ (fileName : String) (rules : List ColumnRule) (rowIdx : Nat)
      (row : String → String),
      (rules.map (·.column)).Nodup →
      (∀ r ∈ rules, ∀ p ∈ r.validators, p.2 ≠ ErrorCode.requiredField) →
      (validate_row fileName rules rowIdx row).countP
          (fun i => i.code == ErrorCode.requiredField) =
        rules.countP (fun r => r.required && (pyStrip (row r.column) == ""))) ∧
    (∀ (fileName : String) (rules : List ColumnRule) (rowIdx : Nat)
      (row : String → String),
      (rules.map (·.column)).Nodup →
      ∀ r ∈ rules, pyStrip (row r.column) ≠ "" →
        (validate_row fileName rules rowIdx row).filter
            (fun iss => iss.columnName == some r.column) =
          r.validators.filterMap (fun p =>
            match p.1 (pyStrip (row r.column)) with
            | some msg =>
                if msg = "" then none
                else some ⟨ValidationLevel.error, p.2, msg,
                  some fileName, some rowIdx, some r.column,
                  some (pyStrip (row r.column))⟩
            | none => none)) ∧
    (∀ (fileName : String) (rules : List ColumnRule)
      (rows : List (String → String)),
      validate_rows fileName rules 2 rows =
        (rows.enumFrom 2).flatMap
          (fun p => validate_row fileName rules p.1 p.2)) := by
  refine ⟨?_, ?_, ?_⟩
  · intro fileName rules rowIdx row hnd hnorf
    rw [validate_row, rules_map_of_nodup rules hnd, listCountPFlatMap]
    induction rules with
    | nil => rfl
    | cons r rest ihr =>
        simp only [List.map_cons, List.sum_cons, List.countP_cons]
        rw [validate_cell_required_count fileName rowIdx row r
          (hnorf r (List.mem_cons_self r rest))]
        rw [ihr (by simpa using (List.nodup_cons.1 (by simpa using hnd)).2)
          (fun r' hr' => hnorf r' (List.mem_cons_of_mem r hr'))]
        by_cases hc : r.required ∧ pyStrip (row r.column) = ""
        · have : (r.required && (pyStrip (row r.column) == "")) = true := by
            simp [hc.1, hc.2]
          rw [if_pos hc, this, if_pos rfl]
          omega
        · have : (r.required && (pyStrip (row r.column) == "")) = false := by
            rcases not_and_or.1 hc with h | h
            · simp [Bool.eq_false_iff.2 h]
            · simp only [Bool.and_eq_false_iff]
              right
              simpa using h
          rw [if_neg hc, this, if_neg Bool.false_ne_true]
          omega
  · intro fileName rules rowIdx row hnd r hr hne
    rw [validate_row, rules_map_of_nodup rules hnd]
    rw [flatMap_filter_single_column fileName rowIdx row rules hnd r hr]
    rw [validate_cell]
    rw [if_neg (fun h => hne h.2), if_pos hne]
  · intro fileName rules rows
    exact validate_rows_eq fileName rules 2 rows

/-- The isolated row loop at concrete inputs: four ruled-required
columns all left empty yield exactly four REQUIRED_FIELD errors; a
non-empty ruled cell whose single check fails reports that failure with
the paired code and location. -/
theorem required_field_count_exact_witness :
    (validate_row "activities.csv"
        [⟨"c1", true, []⟩, ⟨"c2", true, []⟩, ⟨"c3", true, []⟩, ⟨"c4", true, []⟩]
        2 (fun _ => "")).countP
        (fun i => i.code == ErrorCode.requiredField) = 4 ∧
    (validate_row "activities.csv"
        [⟨"c1", false, [(fun v => validate_boolean_flag v, ErrorCode.invalidBoolean)]⟩]
        2 (fun _ => "maybe")).filter
        (fun iss => iss.columnName == some "c1") =
      [⟨ValidationLevel.error, ErrorCode.invalidBoolean,
        "Invalid boolean flag 'maybe', expected 0, 1, true, or false",
        some "activities.csv", some 2, some "c1", some "maybe"⟩] := by
  constructor
  · rw [required_field_count_exact.1 "activities.csv"
      [⟨"c1", true, []⟩, ⟨"c2", true, []⟩, ⟨"c3", true, []⟩, ⟨"c4", true, []⟩]
      2 (fun _ => "") (by decide)
      (by intro r hr p hp; simp at hr; rcases hr with rfl | rfl | rfl | rfl <;>
        exact absurd hp (List.not_mem_nil p))]
    rfl
  · rw [required_field_count_exact.2.1 "activities.csv"
      [⟨"c1", false, [(fun v => validate_boolean_flag v, ErrorCode.invalidBoolean)]⟩]
      2 (fun _ => "maybe") (by decide)
      ⟨"c1", false, [(fun v => validate_boolean_flag v, ErrorCode.invalidBoolean)]⟩
      (List.mem_singleton.2 rfl) (by decide)]
    rfl

/-- The `expected_columns` property (csv_validators/base.py lines
62-65): the class-level `csv_files` lookup on the old converter raises
`AttributeError`; the dead continuation would subscript the entry and
take its column list (a `KeyError` if the key were absent). -/
def base_expected_columns (csv_key : String) : Except PyError (List String) :=
  (old_converter_class_csv_files (List (String × List String))).bind
    (fun cfgs =>
      match cfgs.lookup csv_key with
      | some cols => Except.ok cols
      | none => Except.error (PyError.keyError csv_key))

/-- `BaseCsvValidator.validate` (csv_validators/base.py lines 67-140)
over an already-parsed file: `none` = the file is absent (MISSING_FILE
error), an empty row list = EMPTY_FILE warning, and otherwise
`_check_columns` (line 102) reads `expected_columns` — raising — before
the per-row rule loop (lines 104-135) can run. The CSV-read-exception
branch (lines 81-90) and the `validate_custom` hook are not
modelled. -/
def base_validate (csv_key fileName : String) (rules : List ColumnRule)
    (file : Option (List String × List (String → String))) :
    Except PyError (List ValidationIssue) :=
  match file with
  | none =>
      Except.ok [⟨ValidationLevel.error, ErrorCode.missingFile,
        "File not found: " ++ fileName, some fileName, none, none, none⟩]
  | some (header, rows) =>
      if rows.isEmpty then
        Except.ok [⟨ValidationLevel.warning, ErrorCode.emptyFile,
          "File has no data rows: " ++ fileName, some fileName, none, none,
          none⟩]
      else do
        let cols ← base_expected_columns csv_key
        let colIssues := cols.filterMap (fun c =>
          if c ∈ header then none
          else some ⟨ValidationLevel.warning, ErrorCode.missingColumn,
            "Expected column '" ++ c ++ "' not found", some fileName, none,
            some c, none⟩)
        pure (colIssues ++ validate_rows fileName rules 2 rows)

/-- C5: the per-row rule loop is unreachable. For a table whose single
data row leaves four ruled-required columns empty — where the claim
expects exactly four REQUIRED_FIELD errors — `BaseCsvValidator.validate`
raises `AttributeError` at the header check (line 102, via
`expected_columns`), before the row loop runs; only an absent file and
a rowless file return normally. The row loop itself, run in isolation,
would produce exactly the four claimed errors (the first conjunct of
`required_field_count_exact` at this input). -/
theorem required_field_unreachable :
    base_validate "activities" "activities.csv"
      [⟨"c1", true, []⟩, ⟨"c2", true, []⟩, ⟨"c3", true, []⟩, ⟨"c4", true, []⟩]
      (some (["c1", "c2", "c3", "c4"], [fun _ => ""])) =
      Except.error csvFilesAttrError ∧
    (validate_row "activities.csv"
        [⟨"c1", true, []⟩, ⟨"c2", true, []⟩, ⟨"c3", true, []⟩, ⟨"c4", true, []⟩]
        2 (fun _ => "")).countP
        (fun i => i.code == ErrorCode.requiredField) = 4 ∧
    base_validate "activities" "activities.csv"
      [⟨"c1", true, []⟩, ⟨"c2", true, []⟩, ⟨"c3", true, []⟩, ⟨"c4", true, []⟩]
      none =
      Except.ok [⟨ValidationLevel.error, ErrorCode.missingFile,
        "File not found: activities.csv", some "activities.csv", none, none,
        none⟩] ∧
    base_validate "activities" "activities.csv"
      [⟨"c1", true, []⟩, ⟨"c2", true, []⟩, ⟨"c3", true, []⟩, ⟨"c4", true, []⟩]
      (some (["c1", "c2", "c3", "c4"], [])) =
      Except.ok [⟨ValidationLevel.warning, ErrorCode.emptyFile,
        "File has no data rows: activities.csv", some "activities.csv", none,
        none, none⟩] :=
  ⟨rfl, rfl, rfl, rfl⟩

/-! ### Missing table files (C8) -/

/-- One entry of `IatiMultiCsvConverter.csv_files` (base.py lines
55-345): table key, file name, required flag. -/
structure CsvConfig where
  key : String
  filename : String
  required : Bool
deriving DecidableEq

/-- The canonical table schema (base.py lines 55-345): 16 tables, of
which only `activities` carries `required: True`. -/
def csv_files : List CsvConfig :=
  [⟨"activities", "activities.csv", true⟩,
   ⟨"participating_orgs", "participating_orgs.csv", false⟩,
   ⟨"sectors", "sectors.csv", false⟩,
   ⟨"budgets", "budgets.csv", false⟩,
   ⟨"transactions", "transactions.csv", false⟩,
   ⟨"transaction_sectors", "transaction_sectors.csv", false⟩,
   ⟨"locations", "locations.csv", false⟩,
   ⟨"documents", "documents.csv", false⟩,
   ⟨"results", "results.csv", false⟩,
   ⟨"indicators", "indicators.csv", false⟩,
   ⟨"indicator_periods", "indicator_periods.csv", false⟩,
   ⟨"activity_date", "activity_date.csv", false⟩,
   ⟨"contact_info", "contact_info.csv", false⟩,
   ⟨"conditions", "conditions.csv", false⟩,
   ⟨"descriptions", "descriptions.csv", false⟩,
   ⟨"country_budget_items", "country_budget_items.csv", false⟩]

/-- The reading loop of `csv_folder_to_xml` (base.py lines 461-468): the
folder is a partial map from file name to row list (`none` = absent on
disk); every absent table — the activities table included — becomes the
empty row list, and this loop has no error path at all. -/
def read_data_collections (Row : Type) (folder : String → Option (List Row)) :
    List (String × List Row) :=
  csv_files.map (fun cfg => (cfg.key, (folder cfg.filename).getD []))

/-- `needle` starts `hay`. -/
def startsWithChars : List Char → List Char → Bool
  | [], _ => true
  | _ :: _, [] => false
  | n :: ns, h :: hs => n == h && startsWithChars ns hs

/-- `needle` occurs somewhere inside `hay`. -/
def containsChars : List Char → List Char → Bool
  | hay, needle =>
      startsWithChars needle hay ||
        match hay with
        | [] => false
        | _ :: t => containsChars t needle

/-- `Path(name).stem`: the name with its last dot-suffix removed. -/
def fileStem (s : String) : String :=
  let parts := s.data.splitOn '.'
  if parts.length ≤ 1 then s else ⟨List.intercalate ['.'] parts.dropLast⟩

/-- `f.suffix == '.csv'`, modelled as ending in `.csv`. -/
def endsWithCsv (f : String) : Bool :=
  startsWithChars ".csv".data.reverse f.data.reverse

/-- `_find_csv_file` (folder_validator.py lines 144-151): some present
file ends in `.csv` and contains the expected stem inside its stem. -/
def find_csv_match (present : List String) (filename : String) : Bool :=
  present.any (fun f =>
    endsWithCsv f && containsChars (fileStem f).data (fileStem filename).data)

/-- The MISSING_FILE issues of `CsvFolderValidator.validate_folder`
(folder_validator.py lines 82-121): a non-directory folder is one
error; a missing `activities.csv` short-circuits with one error; in the
per-file loop an absent, non-prefix-matched file errors only when the
table is required. -/
def validate_folder_missing_file_issues (isDir : Bool)
    (present : List String) : List ValidationIssue :=
  if !isDir then
    [⟨ValidationLevel.error, ErrorCode.missingFile, "Folder not found",
      none, none, none, none⟩]
  else if "activities.csv" ∉ present then
    [⟨ValidationLevel.error, ErrorCode.missingFile,
      "Required file activities.csv not found",
      some "activities.csv", none, none, none⟩]
  else
    csv_files.filterMap (fun cfg =>
      if cfg.filename ∉ present ∧ ¬ find_csv_match present cfg.filename ∧
          cfg.required then
        some ⟨ValidationLevel.error, ErrorCode.missingFile,
          "Required file " ++ cfg.filename ++ " not found",
          some cfg.filename, none, none, none⟩
      else none)

/-- C8 counterexample: the reading loop of `csv_folder_to_xml` treats a
folder with no files at all exactly like a folder holding an empty
activities table — the absent required activities table is read as an
empty table, and no error is produced by the read step. -/
theorem missing_activities_read_counterexample :
    read_data_collections Unit (fun _ => none) =
      read_data_collections Unit
        (fun f => if f = "activities.csv" then some [] else none) ∧
    (read_data_collections Unit (fun _ => none)).lookup "activities" =
      some [] := by
  constructor <;> rfl

/-- C8 (amended): the read step of tables-to-XML treats every table file
absent on disk — the activities table included — as an empty table with
no error; the required/optional distinction (activities required, every
other table optional) governs only the MISSING_FILE errors of the
folder-level CSV validation, where exactly one such error fires iff
`activities.csv` is absent. -/
theorem missing_files_amended :
    (∀ (Row : Type) (folder : String → Option (List Row)),
      ∀ cfg ∈ csv_files, folder cfg.filename = none →
        (cfg.key, ([] : List Row)) ∈ read_data_collections Row folder) ∧
    csv_files.filter (·.required) = [⟨"activities", "activities.csv", true⟩] ∧
    (∀ present : List String,
      validate_folder_missing_file_issues true present =
        if "activities.csv" ∈ present then []
        else [⟨ValidationLevel.error, ErrorCode.missingFile,
          "Required file activities.csv not found",
          some "activities.csv", none, none, none⟩]) := by
  refine ⟨?_, by rfl, ?_⟩
  · intro Row folder cfg hcfg habs
    refine List.mem_map.2 ⟨cfg, hcfg, ?_⟩
    rw [habs]
    rfl
  · intro present
    by_cases h : "activities.csv" ∈ present
    · rw [if_pos h]
      rw [validate_folder_missing_file_issues]
      simp only [Bool.not_true, Bool.false_eq_true, if_false]
      rw [if_neg (by simpa using h)]
      simp [csv_files, h]
    · rw [if_neg h]
      rw [validate_folder_missing_file_issues]
      simp only [Bool.not_true, Bool.false_eq_true, if_false]
      rw [if_pos h]

/-- Witness for C8 (amended) at a concrete folder: with only
`sectors.csv` on disk, the transactions table reads as empty, and folder
validation's missing-file pass yields exactly the activities error. -/
theorem missing_files_amended_witness :
    ("transactions", ([] : List Unit)) ∈
      read_data_collections Unit
        (fun f => if f = "sectors.csv" then some [] else none) ∧
    validate_folder_missing_file_issues true ["sectors.csv"] =
      [⟨ValidationLevel.error, ErrorCode.missingFile,
        "Required file activities.csv not found",
        some "activities.csv", none, none, none⟩] := by
  constructor
  · exact missing_files_amended.1 Unit
      (fun f => if f = "sectors.csv" then some [] else none)
      ⟨"transactions", "transactions.csv", false⟩ (by decide) (by decide)
  · rw [missing_files_amended.2.2 ["sectors.csv"]]
    rfl

/-! ### Build grouping: one Activity per identifier (C9) -/

/-- A row of `activities.csv` for the Build Engine: its identifier plus
the remaining cells as an association list (a Python dict). -/
structure MainRow where
  activity_identifier : String
  attrs : List (String × String)
deriving DecidableEq

/-- A row of any child table: its foreign key plus the remaining cells. -/
structure ChildTableRow where
  activity_identifier : String
  attrs : List (String × String)
deriving DecidableEq

/-- The key under which an activities row enters `activity_data_map`
(base.py lines 727-730): skipped entirely when the identifier is empty. -/
def activityKey? (r : MainRow) : Option String :=
  if r.activity_identifier = "" then none else some r.activity_identifier

/-- The first loop of `_build_activities_from_collections` (base.py
lines 727-749): a Python dict keyed by identifier; a repeated identifier
replaces the stored main row in place (last row wins). -/
def build_activity_data_map (mains : List MainRow) : List (String × MainRow) :=
  pyDictFold activityKey? id (fun _ r => r) [] mains

/-- The grouping loop (base.py lines 752-760): each child row is
appended to its activity's entry when the identifier is a key of the
map, and silently dropped otherwise. -/
def attach_children_fold
    (m : List (String × MainRow × List ChildTableRow))
    (children : List ChildTableRow) :
    List (String × MainRow × List ChildTableRow) :=
  children.foldl (fun acc c =>
    if acc.any (fun e => e.1 == c.activity_identifier) then
      acc.map (fun e =>
        if e.1 = c.activity_identifier then (e.1, e.2.1, e.2.2 ++ [c]) else e)
    else acc) m

/-- The product of `_build_activity_from_data` restricted to what C9
needs: `iati_identifier` is `main_data['activity_identifier']`. -/
structure BuiltActivity where
  iati_identifier : String
  main : MainRow
  children : List ChildTableRow
deriving DecidableEq

/-- `_build_activities_from_collections` (base.py lines 722-773)
restricted to one generic child table: build the identifier map, attach
the child rows, then build one activity per entry. -/
def build_activities_from_collections (mains : List MainRow)
    (children : List ChildTableRow) : List BuiltActivity :=
  (attach_children_fold
      ((build_activity_data_map mains).map
        (fun e => (e.1, e.2, ([] : List ChildTableRow)))) children).map
    (fun e => ⟨e.2.1.activity_identifier, e.2.1, e.2.2⟩)

theorem dedupByKey_mem_of_mem {α κ : Type} [DecidableEq κ] (k : α → κ)
    (seen : List κ) (l : List α) :
    ∀ x ∈ (dedupByKey k seen l).1, x ∈ l := by
  induction l generalizing seen with
  | nil => simp [dedupByKey]
  | cons x xs ih =>
      intro y hy
      simp only [dedupByKey] at hy
      by_cases h : k x ∈ seen
      · exact List.mem_cons_of_mem x (ih seen y (by simpa [if_pos h] using hy))
      · simp only [if_neg h, List.mem_cons] at hy
        rcases hy with rfl | hy
        · exact List.mem_cons_self y xs
        · exact List.mem_cons_of_mem x (ih (k x :: seen) y hy)

theorem pyDictNew_keys {α β : Type} (key? : α → Option String) (init : α → β)
    (upd : β → α → β) :
    ∀ (l : List α) (seen : List String),
      (pyDictNew key? init upd seen l).map (·.1) =
        (dedupByKey id seen (l.filterMap key?)).1 := by
  intro l
  induction l with
  | nil => intro seen; rfl
  | cons x xs ih =>
      intro seen
      cases hkey : key? x with
      | none => simpa [pyDictNew, hkey, List.filterMap_cons] using ih seen
      | some k =>
          simp only [pyDictNew, hkey, List.filterMap_cons]
          rw [dedupByKey]
          simp only [id_eq]
          by_cases hk : k ∈ seen
          · rw [if_pos hk, if_pos hk]
            exact ih seen
          · rw [if_neg hk, if_neg hk]
            simp only [List.map_cons]
            exact congrArg _ (ih (k :: seen))

theorem pyDictNew_key_not_seen {α β : Type} (key? : α → Option String)
    (init : α → β) (upd : β → α → β) (l : List α) (seen : List String) :
    ∀ e ∈ pyDictNew key? init upd seen l, e.1 ∉ seen := by
  intro e he
  have h1 : e.1 ∈ (pyDictNew key? init upd seen l).map (·.1) :=
    List.mem_map_of_mem (·.1) he
  rw [pyDictNew_keys] at h1
  exact dedupByKey_not_mem_seen id seen _ e.1 h1

theorem pyDictRest_replace {α : Type} (key? : α → Option String) (k : String) :
    ∀ (l : List α) (b : α),
      pyDictRest key? (fun _ r => r) k b l =
        ((l.filter (fun a => key? a == some k)).getLast?).getD b := by
  intro l
  induction l with
  | nil => intro b; rfl
  | cons x xs ih =>
      intro b
      simp only [pyDictRest, List.foldl_cons]
      by_cases h : key? x = some k
      · rw [if_pos h, List.filter_cons_of_pos (by simp [h]), List.getLast?_cons]
        simp only [Option.getD_some]
        exact ih x
      · rw [if_neg h, List.filter_cons_of_neg (by simp [h])]
        exact ih b

theorem pyDictNew_replace_mem {α : Type} (key? : α → Option String) :
    ∀ (l : List α) (seen : List String) (e : String × α),
      e ∈ pyDictNew key? id (fun _ r => r) seen l →
        (l.filter (fun a => key? a == some e.1)).getLast? = some e.2 := by
  intro l
  induction l with
  | nil => intro seen e he; exact absurd he (List.not_mem_nil e)
  | cons x xs ih =>
      intro seen e he
      cases hkey : key? x with
      | none =>
          simp only [pyDictNew, hkey] at he
          rw [@List.filter_cons_of_neg _ (fun a => key? a == some e.1) x xs
            (by simp [hkey])]
          exact ih seen e he
      | some k =>
          simp only [pyDictNew, hkey] at he
          by_cases hk : k ∈ seen
          · rw [if_pos hk] at he
            have hek : e.1 ≠ k := by
              intro hcontra
              exact (pyDictNew_key_not_seen key? id (fun _ r => r) xs seen e he)
                (hcontra ▸ hk)
            have hne : ¬ ((fun a => key? a == some e.1) x) = true := by
              simp [hkey]
              exact fun hcontra => hek hcontra.symm
            rw [@List.filter_cons_of_neg _ (fun a => key? a == some e.1) x xs hne]
            exact ih seen e he
          · rw [if_neg hk] at he
            rcases List.mem_cons.1 he with rfl | he'
            · have hb : ((fun a => key? a == some k) x) = true := by simp [hkey]
              show ((x :: xs).filter (fun a => key? a == some k)).getLast? =
                some (pyDictRest key? (fun _ r => r) k (id x) xs)
              rw [@List.filter_cons_of_pos _ (fun a => key? a == some k) x xs hb,
                List.getLast?_cons, pyDictRest_replace]
              rfl
            · have hek : e.1 ≠ k := by
                intro hcontra
                exact (pyDictNew_key_not_seen key? id (fun _ r => r) xs
                  (k :: seen) e he') (hcontra ▸ List.mem_cons_self k seen)
              have hne : ¬ ((fun a => key? a == some e.1) x) = true := by
                simp [hkey]
                exact fun hcontra => hek hcontra.symm
              rw [@List.filter_cons_of_neg _ (fun a => key? a == some e.1) x xs hne]
              exact ih (k :: seen) e he'

theorem attach_children_spec :
    ∀ (children : List ChildTableRow)
      (m : List (String × MainRow × List ChildTableRow)),
      attach_children_fold m children =
        m.map (fun e => (e.1, e.2.1,
          e.2.2 ++ children.filter (fun c => c.activity_identifier == e.1))) := by
  intro children
  induction children with
  | nil =>
      intro m
      simp only [attach_children_fold, List.foldl_nil, List.filter_nil,
        List.append_nil]
      exact (List.map_id m).symm
  | cons c cs ih =>
      intro m
      have hstep : attach_children_fold m (c :: cs) =
          attach_children_fold
            (if m.any (fun e => e.1 == c.activity_identifier) then
              m.map (fun e =>
                if e.1 = c.activity_identifier then (e.1, e.2.1, e.2.2 ++ [c])
                else e)
            else m) cs := by
        rw [attach_children_fold, List.foldl_cons]
        rfl
      rw [hstep]
      by_cases hany : m.any (fun e => e.1 == c.activity_identifier)
      · rw [if_pos hany, ih, List.map_map]
        refine List.map_congr_left ?_
        intro e _
        by_cases hc : e.1 = c.activity_identifier
        · have hb : ((fun x => x.activity_identifier == e.1) c) = true := by
            simp [hc]
          simp only [Function.comp_apply, if_pos hc]
          rw [@List.filter_cons_of_pos _ (fun x => x.activity_identifier == e.1)
            c cs hb]
          simp [List.append_assoc]
        · have hb : ¬ ((fun x => x.activity_identifier == e.1) c) = true := by
            simp
            exact fun hcontra => hc hcontra.symm
          simp only [Function.comp_apply, if_neg hc]
          rw [@List.filter_cons_of_neg _ (fun x => x.activity_identifier == e.1)
            c cs hb]
      · rw [if_neg hany, ih]
        refine List.map_congr_left ?_
        intro e hem
        have hb : ¬ ((fun x => x.activity_identifier == e.1) c) = true := by
          intro hcontra
          refine hany (List.any_eq_true.2 ⟨e, hem, ?_⟩)
          simp at hcontra ⊢
          exact hcontra.symm
        rw [@List.filter_cons_of_neg _ (fun x => x.activity_identifier == e.1)
          c cs hb]

/-- C9: the Build Engine yields exactly one Activity per distinct
non-empty `activity_identifier` (in first-occurrence order); rows with
an empty identifier yield nothing; when several activities rows share an
identifier, the last row's main data wins; every child row bearing that
identifier attaches to the single resulting Activity; and the built
`iati_identifier`s are pairwise distinct and non-empty. -/
theorem build_one_activity_per_id (mains : List MainRow)
    (children : List ChildTableRow) :
    ((build_activities_from_collections mains children).map (·.iati_identifier) =
      (dedupByKey id [] (mains.filterMap activityKey?)).1) ∧
    ((build_activities_from_collections mains children).map
      (·.iati_identifier)).Nodup ∧
    (∀ a ∈ build_activities_from_collections mains children,
      a.iati_identifier ≠ "" ∧
      (mains.filter
        (fun r => r.activity_identifier == a.iati_identifier)).getLast? =
          some a.main ∧
      a.children = children.filter
        (fun c => c.activity_identifier == a.iati_identifier)) := by
  have hout : build_activities_from_collections mains children =
      (build_activity_data_map mains).map (fun e =>
        (⟨e.2.activity_identifier, e.2,
          children.filter (fun c => c.activity_identifier == e.1)⟩ :
            BuiltActivity)) := by
    rw [build_activities_from_collections, attach_children_spec,
      List.map_map, List.map_map]
    refine List.map_congr_left ?_
    intro e _
    simp
  have hmapchar : ∀ e ∈ build_activity_data_map mains,
      (mains.filter (fun a => activityKey? a == some e.1)).getLast? =
        some e.2 := by
    intro e he
    rw [build_activity_data_map, pyDictFold_spec] at he
    simp only [List.map_nil, List.nil_append] at he
    exact pyDictNew_replace_mem activityKey? mains [] e he
  have hkeyeq : ∀ e ∈ build_activity_data_map mains,
      e.2.activity_identifier = e.1 ∧ e.1 ≠ "" := by
    intro e he
    have hlast := hmapchar e he
    have hmem := List.mem_of_mem_getLast? hlast
    have hpred := List.of_mem_filter hmem
    rw [activityKey?] at hpred
    by_cases hid : e.2.activity_identifier = ""
    · rw [if_pos hid] at hpred
      exact absurd hpred (by simp)
    · rw [if_neg hid] at hpred
      have : e.2.activity_identifier = e.1 := by simpa using hpred
      exact ⟨this, this ▸ hid⟩
  have hkeys : (build_activity_data_map mains).map (·.1) =
      (dedupByKey id [] (mains.filterMap activityKey?)).1 := by
    rw [build_activity_data_map, pyDictFold_spec]
    simp only [List.map_nil, List.nil_append]
    exact pyDictNew_keys activityKey? id (fun _ r => r) mains []
  have hiati : (build_activities_from_collections mains children).map
      (·.iati_identifier) = (build_activity_data_map mains).map (·.1) := by
    rw [hout, List.map_map]
    refine List.map_congr_left ?_
    intro e he
    exact (hkeyeq e he).1
  refine ⟨hiati.trans hkeys, ?_, ?_⟩
  · rw [hiati.trans hkeys]
    have := dedupByKey_pairwise id [] (mains.filterMap activityKey?)
    exact this
  · intro a ha
    rw [hout] at ha
    obtain ⟨e, hem, hea⟩ := List.mem_map.1 ha
    obtain ⟨hkey, hne⟩ := hkeyeq e hem
    have hiatia : a.iati_identifier = e.1 := by
      rw [← hea, hkey]
    refine ⟨hiatia ▸ hne, ?_, ?_⟩
    · have hfe : mains.filter
          (fun r => r.activity_identifier == a.iati_identifier) =
          mains.filter (fun a' => activityKey? a' == some e.1) := by
        refine List.filter_congr ?_
        intro r _
        rw [hiatia, activityKey?]
        by_cases hr : r.activity_identifier = ""
        · rw [if_pos hr, hr]
          simp
          exact fun hcontra => hne hcontra.symm
        · rw [if_neg hr]
          simp
      rw [hfe, hmapchar e hem, ← hea]
    · rw [← hea]
      show children.filter (fun c => c.activity_identifier == e.1) =
        children.filter (fun c => c.activity_identifier ==
          e.2.activity_identifier)
      rw [hkey]

/-- Witness for C9 at concrete tables: two rows share identifier `A`
(last wins), one row has an empty identifier (dropped), and the lone
matching child row attaches to the single built activity. -/
theorem build_one_activity_per_id_witness :
    ((⟨"A", ⟨"A", [("title", "t2")]⟩, [⟨"A", [("role", "1")]⟩]⟩ :
        BuiltActivity).iati_identifier ≠ "" ∧
      (([⟨"A", [("title", "t1")]⟩, ⟨"", [("title", "x")]⟩,
        ⟨"A", [("title", "t2")]⟩] : List MainRow).filter
          (fun r => r.activity_identifier == "A")).getLast? =
        some ⟨"A", [("title", "t2")]⟩ ∧
      ([⟨"A", [("role", "1")]⟩, ⟨"B", []⟩] : List ChildTableRow).filter
        (fun c => c.activity_identifier == "A") =
          [⟨"A", [("role", "1")]⟩]) := by
  have h := (build_one_activity_per_id
    [⟨"A", [("title", "t1")]⟩, ⟨"", [("title", "x")]⟩, ⟨"A", [("title", "t2")]⟩]
    [⟨"A", [("role", "1")]⟩, ⟨"B", []⟩]).2.2
    ⟨"A", ⟨"A", [("title", "t2")]⟩, [⟨"A", [("role", "1")]⟩]⟩ (by decide)
  exact h

/-! ### Stable sorting (models Python `sorted`, which is stable) -/

/-- Insert `x` before the first element it compares `le` to; with a
total preorder this realises a stable sort when folded from the right. -/
def insortBy {α : Type} (le : α → α → Bool) (x : α) : List α → List α
  | [] => [x]
  | y :: ys => if le x y then x :: y :: ys else y :: insortBy le x ys

/-- Stable insertion sort: the unique stable sort for a total preorder,
hence the output of Python `sorted` under the same key. -/
def stableSortBy {α : Type} (le : α → α → Bool) (l : List α) : List α :=
  l.foldr (insortBy le) []

theorem mem_insortBy {α : Type} (le : α → α → Bool) (x : α) (l : List α) :
    ∀ z, z ∈ insortBy le x l ↔ z = x ∨ z ∈ l := by
  induction l with
  | nil => intro z; simp [insortBy]
  | cons y ys ih =>
      intro z
      simp only [insortBy]
      by_cases h : le x y
      · simp [if_pos h, List.mem_cons]
      · simp only [if_neg h, List.mem_cons, ih z]
        tauto

theorem insortBy_perm {α : Type} (le : α → α → Bool) (x : α) (l : List α) :
    (insortBy le x l).Perm (x :: l) := by
  induction l with
  | nil => exact List.Perm.refl _
  | cons y ys ih =>
      simp only [insortBy]
      by_cases h : le x y
      · rw [if_pos h]
      · rw [if_neg h]
        exact (List.Perm.cons y ih).trans (List.Perm.swap x y ys)

theorem stableSortBy_perm {α : Type} (le : α → α → Bool) (l : List α) :
    (stableSortBy le l).Perm l := by
  induction l with
  | nil => exact List.Perm.refl _
  | cons x xs ih =>
      exact (insortBy_perm le x (stableSortBy le xs)).trans (List.Perm.cons x ih)

theorem insortBy_pairwise {α : Type} (le : α → α → Bool)
    (htot : ∀ a b, le a b = true ∨ le b a = true)
    (htrans : ∀ a b c, le a b = true → le b c = true → le a c = true)
    (x : α) : ∀ (l : List α), l.Pairwise (fun a b => le a b = true) →
    (insortBy le x l).Pairwise (fun a b => le a b = true) := by
  intro l
  induction l with
  | nil => intro _; simp [insortBy]
  | cons y ys ih =>
      intro hl
      obtain ⟨hy, hys⟩ := List.pairwise_cons.1 hl
      simp only [insortBy]
      by_cases h : le x y
      · rw [if_pos h]
        refine List.Pairwise.cons ?_ hl
        intro z hz
        rcases List.mem_cons.1 hz with rfl | hz'
        · exact h
        · exact htrans x y z h (hy z hz')
      · rw [if_neg h]
        refine List.Pairwise.cons ?_ (ih hys)
        intro z hz
        rcases (mem_insortBy le x ys z).1 hz with hzx | hz'
        · rw [hzx]
          rcases htot x y with hxy | hyx
          · exact absurd hxy h
          · exact hyx
        · exact hy z hz'

theorem stableSortBy_pairwise {α : Type} (le : α → α → Bool)
    (htot : ∀ a b, le a b = true ∨ le b a = true)
    (htrans : ∀ a b c, le a b = true → le b c = true → le a c = true)
    (l : List α) :
    (stableSortBy le l).Pairwise (fun a b => le a b = true) := by
  induction l with
  | nil => simp [stableSortBy]
  | cons x xs ih => exact insortBy_pairwise le htot htrans x _ ih

theorem stableSortBy_of_pairwise {α : Type} (le : α → α → Bool) :
    ∀ (l : List α), l.Pairwise (fun a b => le a b = true) →
      stableSortBy le l = l := by
  intro l
  induction l with
  | nil => intro _; rfl
  | cons x xs ih =>
      intro hl
      obtain ⟨hx, hxs⟩ := List.pairwise_cons.1 hl
      show insortBy le x (stableSortBy le xs) = x :: xs
      rw [ih hxs]
      cases xs with
      | nil => rfl
      | cons y ys =>
          simp only [insortBy]
          rw [if_pos (hx y (List.mem_cons_self y ys))]

/-! ### Description regrouping (C7) -/

/-- A row of `descriptions.csv`; `none` models a missing dict key. -/
structure DescRow where
  description_sequence : Option String
  narrative_sequence : Option String
  description_type : Option String
  narrative : Option String
  narrative_lang : Option String
deriving DecidableEq

/-- `safe_int` (builders.py lines 18-23): `int(value)` with default `0`
on `None` (TypeError) or a non-numeric string (ValueError). -/
def safe_int (value : Option String) : Int :=
  match value with
  | none => 0
  | some s => (pyInt? s).getD 0

/-- The numeric sort key of `build_descriptions_from_rows`
(builders.py lines 541-547). -/
def descSortKey (r : DescRow) : Int × Int :=
  (safe_int r.description_sequence, safe_int r.narrative_sequence)

/-- Lexicographic order on the numeric sort keys. -/
def keyLeB (a b : Int × Int) : Bool :=
  if a.1 < b.1 then true
  else if a.1 = b.1 then decide (a.2 ≤ b.2)
  else false

/-- Row comparison used by the stable sort. -/
def descRowLe (a b : DescRow) : Bool := keyLeB (descSortKey a) (descSortKey b)

/-- Python `sorted(rows, key=lambda r: (safe_int(..), safe_int(..)))`. -/
def pySortDescRows (rows : List DescRow) : List DescRow :=
  stableSortBy descRowLe rows

/-- A built `Narrative`. -/
structure PyNarrative where
  text : String
  lang : Option String
deriving DecidableEq

/-- `Narrative(text=row.get('narrative', '') or '',
lang=row.get('narrative_lang') or None)` (builders.py lines 555-557). -/
def mkNarrative (r : DescRow) : PyNarrative :=
  ⟨r.narrative.getD "",
   match r.narrative_lang with
   | some s => if s = "" then none else some s
   | none => none⟩

/-- The grouping key (builders.py line 549):
`row.get('description_sequence') or str(len(grouped) + 1)`. -/
def effSeq (groupedLen : Nat) (r : DescRow) : String :=
  match r.description_sequence with
  | some s => if s = "" then toString (groupedLen + 1) else s
  | none => toString (groupedLen + 1)

/-- One step of the grouping loop (builders.py lines 549-557):
`setdefault` keeps an existing entry's type and appends the narrative;
a new key appends a new entry whose type comes from this row. -/
def descGroupStep (acc : List (String × String × List PyNarrative))
    (r : DescRow) : List (String × String × List PyNarrative) :=
  let seq := effSeq acc.length r
  if acc.any (fun e => e.1 == seq) then
    acc.map (fun e =>
      if e.1 = seq then (e.1, e.2.1, e.2.2 ++ [mkNarrative r]) else e)
  else acc ++ [(seq, r.description_type.getD "", [mkNarrative r])]

/-- The `grouped` dict after the loop over the sorted rows, in key
insertion order (as Python dicts iterate). -/
def descGroups (srt : List DescRow) :
    List (String × String × List PyNarrative) :=
  srt.foldl descGroupStep []

/-- Final key comparison: `sorted(grouped.keys(), key=safe_int)`. -/
def keyIntLeB (a b : String) : Bool :=
  decide (safe_int (some a) ≤ safe_int (some b))

/-- One output description block: the type only when truthy, plus the
ordered narratives (the never-taken `or [Narrative(text='')]` fallback
kept for fidelity). -/
structure DescBlock where
  type : Option String
  narratives : List PyNarrative
deriving DecidableEq

/-- Builders.py lines 559-566, for one grouped entry. -/
def mkDescBlock (e : String × String × List PyNarrative) : DescBlock :=
  ⟨if e.2.1 = "" then none else some e.2.1,
   if e.2.2 = [] then [⟨"", none⟩] else e.2.2⟩

/-- `build_descriptions_from_rows` (builders.py lines 534-568); sorting
the grouped entries by their key is sorting the dict's keys, since dict
keys are unique and iteration follows insertion order. -/
def build_descriptions_from_rows (rows : List DescRow) : List DescBlock :=
  if rows = [] then []
  else
    (stableSortBy (fun a b => keyIntLeB a.1 b.1)
      (descGroups (pySortDescRows rows))).map mkDescBlock

/-- The description-sequence cell's value (`''` when missing). -/
def seqOf (r : DescRow) : String := r.description_sequence.getD ""

/-- Grouping key of a row whose sequence cell is truthy. -/
def descKey? (r : DescRow) : Option String := some (seqOf r)

/-- Fresh grouped entry for a row. -/
def descInit (r : DescRow) : String × List PyNarrative :=
  (r.description_type.getD "", [mkNarrative r])

/-- Append a row's narrative to an existing grouped entry. -/
def descUpd (b : String × List PyNarrative) (r : DescRow) :
    String × List PyNarrative :=
  (b.1, b.2 ++ [mkNarrative r])

/-- Spec-side (refinement target, following the claim's words): one
block per distinct sequence in first-occurrence order of the sorted
rows; each block's type from its first row and its narratives from its
rows in sorted order, one narrative per row. -/
def specDescBlocks (srt : List DescRow) : List DescBlock :=
  (dedupByKey id [] (srt.map seqOf)).1.map (fun k =>
    mkDescBlock (k,
      (match (srt.filter (fun r => seqOf r == k)).head? with
       | some r0 => r0.description_type.getD ""
       | none => ""),
      (srt.filter (fun r => seqOf r == k)).map mkNarrative))

theorem descGroups_eq_dict :
    ∀ (l : List DescRow) (acc : List (String × String × List PyNarrative)),
      (∀ r ∈ l, pyTruthy r.description_sequence) →
      l.foldl descGroupStep acc = pyDictFold descKey? descInit descUpd acc l := by
  intro l
  induction l with
  | nil => intro acc _; rfl
  | cons r rs ih =>
      intro acc h
      have htr : pyTruthy r.description_sequence :=
        h r (List.mem_cons_self r rs)
      have heff : ∀ n, effSeq n r = seqOf r := by
        intro n
        cases hd : r.description_sequence with
        | none => rw [hd] at htr; exact absurd htr (by simp [pyTruthy])
        | some s =>
            rw [hd] at htr
            have hs : s ≠ "" := by simpa [pyTruthy] using htr
            simp [effSeq, seqOf, hd, hs]
      have hstep : descGroupStep acc r =
          (if acc.any (fun e => e.1 == seqOf r) then
            acc.map (fun e =>
              if e.1 = seqOf r then (e.1, descUpd e.2 r) else e)
          else acc ++ [(seqOf r, descInit r)]) := by
        simp only [descGroupStep, heff acc.length]
        rfl
      rw [List.foldl_cons, hstep,
        ih _ (fun r' hr' => h r' (List.mem_cons_of_mem r hr'))]
      simp only [pyDictFold, descKey?]
      by_cases hc : (acc.any fun e => e.1 == seqOf r) = true
      · rw [if_pos hc, if_pos hc]
      · rw [if_neg hc, if_neg hc]

theorem descRest_spec (k : String) :
    ∀ (l : List DescRow) (b : String × List PyNarrative),
      pyDictRest descKey? descUpd k b l =
        (b.1, b.2 ++ (l.filter (fun r => seqOf r == k)).map mkNarrative) := by
  intro l
  induction l with
  | nil => intro b; simp [pyDictRest]
  | cons r rs ih =>
      intro b
      rw [show pyDictRest descKey? descUpd k b (r :: rs) =
        pyDictRest descKey? descUpd k
          (if descKey? r = some k then descUpd b r else b) rs from rfl]
      by_cases h : seqOf r = k
      · rw [if_pos (by simp [descKey?, h]), ih (descUpd b r),
          @List.filter_cons_of_pos _ (fun r => seqOf r == k) r rs (by simp [h])]
        simp [descUpd, List.append_assoc]
      · rw [if_neg (by simp [descKey?, h]), ih b,
          @List.filter_cons_of_neg _ (fun r => seqOf r == k) r rs (by simp [h])]

theorem desc_new_spec :
    ∀ (l : List DescRow) (seen : List String),
      pyDictNew descKey? descInit descUpd seen l =
        (dedupByKey id seen (l.map seqOf)).1.map (fun k =>
          (k,
           (match (l.filter (fun r => seqOf r == k)).head? with
            | some r0 => r0.description_type.getD ""
            | none => ""),
           (l.filter (fun r => seqOf r == k)).map mkNarrative)) := by
  intro l
  induction l with
  | nil => intro seen; rfl
  | cons r rs ih =>
      intro seen
      simp only [pyDictNew, descKey?, List.map_cons]
      rw [dedupByKey]
      simp only [id_eq]
      by_cases hk : seqOf r ∈ seen
      · rw [if_pos hk, if_pos hk, ih seen]
        refine List.map_congr_left ?_
        intro k hkmem
        have hknot : k ∉ seen := dedupByKey_not_mem_seen id seen _ k hkmem
        have hne : seqOf r ≠ k := fun hcontra => hknot (hcontra ▸ hk)
        rw [@List.filter_cons_of_neg _ (fun r => seqOf r == k) r rs
          (by simp [hne])]
      · rw [if_neg hk, if_neg hk]
        simp only [List.map_cons]
        refine congrArg₂ List.cons ?_ ?_
        · rw [@List.filter_cons_of_pos _ (fun r' => seqOf r' == seqOf r) r rs
            (by simp)]
          rw [descRest_spec (seqOf r) rs (descInit r)]
          simp [descInit, List.head?_cons]
        · rw [ih (seqOf r :: seen)]
          refine List.map_congr_left ?_
          intro k hkmem
          have hknot : k ∉ seqOf r :: seen :=
            dedupByKey_not_mem_seen id (seqOf r :: seen) _ k hkmem
          have hne : seqOf r ≠ k := fun hcontra =>
            hknot (hcontra ▸ List.mem_cons_self (seqOf r) seen)
          rw [@List.filter_cons_of_neg _ (fun r' => seqOf r' == k) r rs
            (by simp [hne])]

theorem descGroups_spec (srt : List DescRow)
    (h : ∀ r ∈ srt, pyTruthy r.description_sequence) :
    descGroups srt =
      (dedupByKey id [] (srt.map seqOf)).1.map (fun k =>
        (k,
         (match (srt.filter (fun r => seqOf r == k)).head? with
          | some r0 => r0.description_type.getD ""
          | none => ""),
         (srt.filter (fun r => seqOf r == k)).map mkNarrative)) := by
  rw [descGroups, descGroups_eq_dict srt [] h, pyDictFold_spec]
  simp only [List.map_nil, List.nil_append]
  exact desc_new_spec srt []

theorem keyLeB_total (a b : Int × Int) :
    keyLeB a b = true ∨ keyLeB b a = true := by
  simp only [keyLeB]
  by_cases h1 : a.1 < b.1
  · left; rw [if_pos h1]
  · by_cases h2 : b.1 < a.1
    · right; rw [if_pos h2]
    · have he : a.1 = b.1 := by omega
      rcases le_total a.2 b.2 with h3 | h3
      · left
        rw [if_neg h1, if_pos he]
        simpa using h3
      · right
        rw [if_neg h2, if_pos he.symm]
        simpa using h3

theorem keyLeB_trans (a b c : Int × Int) (hab : keyLeB a b = true)
    (hbc : keyLeB b c = true) : keyLeB a c = true := by
  simp only [keyLeB] at hab hbc ⊢
  split_ifs at hab hbc ⊢ <;> simp_all <;> omega

theorem keyLeB_fst_le (a b : Int × Int) (h : keyLeB a b = true) :
    a.1 ≤ b.1 := by
  simp only [keyLeB] at h
  split_ifs at h <;> omega

theorem descRowLe_total (a b : DescRow) :
    descRowLe a b = true ∨ descRowLe b a = true :=
  keyLeB_total (descSortKey a) (descSortKey b)

theorem descRowLe_trans (a b c : DescRow) (hab : descRowLe a b = true)
    (hbc : descRowLe b c = true) : descRowLe a c = true :=
  keyLeB_trans (descSortKey a) (descSortKey b) (descSortKey c) hab hbc

/-- The numeric coercion is insensitive to the `getD ""` default: a
missing sequence and the empty string both coerce to `0`. -/
theorem safe_int_seqOf (r : DescRow) :
    safe_int (some (seqOf r)) = safe_int r.description_sequence := by
  cases h : r.description_sequence with
  | none => simp [seqOf, h, safe_int, pyInt?, pyStrip, signedInt?, unsignedInt?]
  | some s => simp [seqOf, h]

theorem dedupByKey_sublist {α κ : Type} [DecidableEq κ] (k : α → κ) :
    ∀ (l : List α) (seen : List κ), (dedupByKey k seen l).1.Sublist l := by
  intro l
  induction l with
  | nil => intro seen; simp [dedupByKey]
  | cons x xs ih =>
      intro seen
      simp only [dedupByKey]
      by_cases h : k x ∈ seen
      · rw [if_pos h]
        exact (ih seen).cons x
      · rw [if_neg h]
        exact (ih (k x :: seen)).cons₂ x

theorem dedupByKey_id_complete {κ : Type} [DecidableEq κ] :
    ∀ (l : List κ) (seen : List κ) (x : κ), x ∈ l →
      x ∈ seen ∨ x ∈ (dedupByKey id seen l).1 := by
  intro l
  induction l with
  | nil => intro seen x hx; exact absurd hx (List.not_mem_nil x)
  | cons y ys ih =>
      intro seen x hx
      simp only [dedupByKey, id_eq]
      by_cases h : y ∈ seen
      · rw [if_pos h]
        rcases List.mem_cons.1 hx with rfl | hx'
        · exact Or.inl h
        · exact ih seen x hx'
      · rw [if_neg h]
        rcases List.mem_cons.1 hx with rfl | hx'
        · exact Or.inr (List.mem_cons_self x _)
        · rcases ih (y :: seen) x hx' with hs | hr
          · rcases List.mem_cons.1 hs with rfl | hs'
            · exact Or.inr (List.mem_cons_self x _)
            · exact Or.inl hs'
          · exact Or.inr (List.mem_cons_of_mem y hr)

theorem sum_filter_length_by_key {α : Type} (f : α → String) :
    ∀ (keys : List String) (l : List α), keys.Nodup →
      (∀ x ∈ l, f x ∈ keys) →
      (keys.map (fun k => (l.filter (fun x => f x == k)).length)).sum =
        l.length := by
  intro keys
  induction keys with
  | nil =>
      intro l _ hcomp
      cases l with
      | nil => rfl
      | cons x xs =>
          exact absurd (hcomp x (List.mem_cons_self x xs))
            (List.not_mem_nil (f x))
  | cons k ks ih =>
      intro l hnd hcomp
      obtain ⟨hk, hks⟩ := List.nodup_cons.1 hnd
      simp only [List.map_cons, List.sum_cons]
      have hrest : ∀ k' ∈ ks,
          (l.filter (fun x => f x == k')).length =
          ((l.filter (fun x => !(f x == k))).filter
            (fun x => f x == k')).length := by
        intro k' hk'
        have hkk : k' ≠ k := fun hcontra => hk (hcontra ▸ hk')
        rw [List.filter_filter]
        refine congrArg _ (List.filter_congr ?_)
        intro x _
        by_cases hx : f x = k'
        · have h1 : (f x == k') = true := by simp [hx]
          have h2 : (f x == k) = false := by
            simp only [beq_eq_false_iff_ne, ne_eq, hx]
            exact hkk
          rw [h1, h2]
          rfl
        · have h1 : (f x == k') = false := by simp [hx]
          rw [h1]
          simp
      have hmap : ks.map (fun k' => (l.filter (fun x => f x == k')).length) =
          ks.map (fun k' => ((l.filter (fun x => !(f x == k))).filter
            (fun x => f x == k')).length) :=
        List.map_congr_left hrest
      have hcomp' : ∀ x ∈ l.filter (fun x => !(f x == k)), f x ∈ ks := by
        intro x hx
        obtain ⟨hxl, hxk⟩ := List.mem_filter.1 hx
        rcases List.mem_cons.1 (hcomp x hxl) with hfx | hfx
        · simp [hfx] at hxk
        · exact hfx
      rw [hmap, ih (l.filter (fun x => !(f x == k))) hks hcomp']
      exact (List.length_eq_length_filter_add (fun x => f x == k)).symm

/-- C7: grouping and ordering of description rows. With every row's
`description_sequence` populated (the main case; a blank or missing
sequence instead receives the synthesized key `str(len(grouped)+1)` and
the default numeric coercion `0`, per the last conjuncts):
the Build Engine sorts the rows stably by the numeric pair
`(description_sequence, narrative_sequence)`, produces exactly one
description block per distinct sequence, and each block carries its
rows' narratives in that numeric order, one narrative per row. -/
theorem descriptions_regrouping (rows : List DescRow)
    (h : ∀ r ∈ rows, pyTruthy r.description_sequence) :
    build_descriptions_from_rows rows = specDescBlocks (pySortDescRows rows) ∧
    (pySortDescRows rows).Perm rows ∧
    (pySortDescRows rows).Pairwise (fun a b => descRowLe a b = true) ∧
    (build_descriptions_from_rows rows).length =
      (dedupByKey id [] ((pySortDescRows rows).map seqOf)).1.length ∧
    ((build_descriptions_from_rows rows).map (·.narratives.length)).sum =
      rows.length ∧
    (∀ (n : Nat) (r : DescRow), ¬ pyTruthy r.description_sequence →
      effSeq n r = toString (n + 1)) ∧
    safe_int none = 0 ∧
    (∀ s : String, pyInt? s = none → safe_int (some s) = 0) := by
  have hperm : (pySortDescRows rows).Perm rows := stableSortBy_perm _ rows
  have hsrtmem : ∀ r ∈ pySortDescRows rows, pyTruthy r.description_sequence :=
    fun r hr => h r (hperm.mem_iff.1 hr)
  have hsorted : (pySortDescRows rows).Pairwise
      (fun a b => descRowLe a b = true) :=
    stableSortBy_pairwise descRowLe descRowLe_total descRowLe_trans rows
  have hkeysorted : ((dedupByKey id []
      ((pySortDescRows rows).map seqOf)).1).Pairwise
      (fun a b => keyIntLeB a b = true) := by
    have h1 : ((pySortDescRows rows).map seqOf).Pairwise
        (fun a b => keyIntLeB a b = true) := by
      rw [List.pairwise_map]
      refine hsorted.imp ?_
      intro a b hab
      rw [keyIntLeB, decide_eq_true_eq, safe_int_seqOf, safe_int_seqOf]
      exact keyLeB_fst_le (descSortKey a) (descSortKey b) hab
    exact h1.sublist (dedupByKey_sublist id _ [])
  have hmain : build_descriptions_from_rows rows =
      specDescBlocks (pySortDescRows rows) := by
    by_cases hnil : rows = []
    · subst hnil
      rfl
    · rw [build_descriptions_from_rows, if_neg hnil,
        descGroups_spec (pySortDescRows rows) hsrtmem]
      have hentries : (((dedupByKey id []
          ((pySortDescRows rows).map seqOf)).1).map (fun k =>
            (k,
             (match ((pySortDescRows rows).filter
                (fun r => seqOf r == k)).head? with
              | some r0 => r0.description_type.getD ""
              | none => ""),
             ((pySortDescRows rows).filter
                (fun r => seqOf r == k)).map mkNarrative))).Pairwise
          (fun a b => keyIntLeB a.1 b.1 = true) := by
        rw [List.pairwise_map]
        exact hkeysorted
      rw [stableSortBy_of_pairwise _ _ hentries]
      rw [specDescBlocks, List.map_map]
      rfl
  have hnarrs : ((build_descriptions_from_rows rows).map
      (·.narratives.length)).sum = rows.length := by
    rw [hmain]
    have hlens : ((specDescBlocks (pySortDescRows rows)).map
        (·.narratives.length)) =
        ((dedupByKey id [] ((pySortDescRows rows).map seqOf)).1).map
          (fun k => ((pySortDescRows rows).filter
            (fun r => seqOf r == k)).length) := by
      rw [specDescBlocks, List.map_map]
      refine List.map_congr_left ?_
      intro k hk
      have hk2 : k ∈ (pySortDescRows rows).map seqOf :=
        dedupByKey_mem_of_mem id [] _ k hk
      obtain ⟨r, hr, hrk⟩ := List.mem_map.1 hk2
      have hne : ((pySortDescRows rows).filter
          (fun r => seqOf r == k)).map mkNarrative ≠ [] := by
        intro hcontra
        rw [List.map_eq_nil_iff] at hcontra
        have hmem : r ∈ (pySortDescRows rows).filter
            (fun r => seqOf r == k) :=
          List.mem_filter.2 ⟨hr, by simp [hrk]⟩
        rw [hcontra] at hmem
        exact List.not_mem_nil r hmem
      simp only [Function.comp_apply, mkDescBlock]
      rw [if_neg hne]
      simp
    rw [hlens]
    have hnodup : ((dedupByKey id []
        ((pySortDescRows rows).map seqOf)).1).Nodup := by
      have := dedupByKey_pairwise id [] ((pySortDescRows rows).map seqOf)
      exact this
    have hcomp : ∀ r ∈ pySortDescRows rows,
        seqOf r ∈ (dedupByKey id []
          ((pySortDescRows rows).map seqOf)).1 := by
      intro r hr
      have hin : seqOf r ∈ (pySortDescRows rows).map seqOf :=
        List.mem_map_of_mem seqOf hr
      rcases dedupByKey_id_complete _ [] (seqOf r) hin with hfalse | hgood
      · exact absurd hfalse (List.not_mem_nil (seqOf r))
      · exact hgood
    rw [sum_filter_length_by_key seqOf _ (pySortDescRows rows) hnodup hcomp]
    exact hperm.length_eq
  refine ⟨hmain, hperm, hsorted, ?_, hnarrs, ?_, rfl, ?_⟩
  · rw [hmain, specDescBlocks, List.length_map]
  · intro n r hr
    cases hd : r.description_sequence with
    | none => simp [effSeq, hd]
    | some s =>
        rw [hd] at hr
        have hs : s = "" := by
          by_contra hcontra
          exact hr (by simpa [pyTruthy] using hcontra)
        simp [effSeq, hd, hs]
  · intro s hs
    simp [safe_int, hs]

/-- Witness for C7 at two rows with distinct numeric sequences given in
reverse order: the build sorts them and yields one block per sequence
with its narrative. -/
theorem descriptions_regrouping_witness :
    build_descriptions_from_rows
      [⟨some "2", some "1", some "t2", some "B", none⟩,
       ⟨some "1", some "1", some "t1", some "A", some "en"⟩] =
      specDescBlocks (pySortDescRows
        [⟨some "2", some "1", some "t2", some "B", none⟩,
         ⟨some "1", some "1", some "t1", some "A", some "en"⟩]) ∧
    build_descriptions_from_rows
      [⟨some "2", some "1", some "t2", some "B", none⟩,
       ⟨some "1", some "1", some "t1", some "A", some "en"⟩] =
      [⟨some "t1", [⟨"A", some "en"⟩]⟩, ⟨some "t2", [⟨"B", none⟩]⟩] := by
  constructor
  · exact (descriptions_regrouping
      [⟨some "2", some "1", some "t2", some "B", none⟩,
       ⟨some "1", some "1", some "t1", some "A", some "en"⟩]
      (by decide)).1
  · rfl

end OkfnIati
